import Mathlib

/-!
A verification development for the DomiClaw agent core: a shallow embedding of
the Anthropic SSE streaming decoder (pkg/providers/anthropic.go, parseSSEStream)
and of the agent turn loop (pkg/agent, runAgentLoop / runInteractiveLoop / Run),
together with the tool registry (pkg/tools/registry.go).  Calls into the external
memory collaborator (pkg/memory/store.go) are modelled as an explicit effect
trace; the JSON library (encoding/json) is modelled by an abstract parse
function passed as a parameter and by a rendering function for argument maps.
-/

set_option linter.unusedVariables false

namespace DomiClaw

/-- Model of Go strings.ToLower (adequate for the ASCII marker lists used by
the agent's error classification). -/
def lowerStr (s : String) : String := ⟨s.data.map Char.toLower⟩

/-- Boolean infix test on character lists; listInfixB p l is true when p occurs
contiguously inside l (also when p is empty). -/
def listInfixB (p : List Char) : List Char → Bool
  | [] => p.isEmpty
  | c :: t => p.isPrefixOf (c :: t) || listInfixB p t

/-- Model of Go strings.Contains(s, pat). -/
def strContains (s pat : String) : Bool := listInfixB pat.toList s.toList

/-- Model of a decoded JSON object (Go map[string]interface with string
values), represented as a key-sorted association list. -/
abbrev Args := List (String × String)

/-- Model of json.Marshal applied to a possibly-nil arguments map, as used by
marshalArgs in the agent package; a nil map marshals to "null". -/
def marshalArgs : Option Args → String
  | none => "null"
  | some kvs =>
      "\x7b" ++ String.intercalate "," (kvs.map (fun kv => "\"" ++ kv.1 ++ "\":\"" ++ kv.2 ++ "\"")) ++ "\x7d"

/-- providers.Usage. -/
structure Usage where
  promptTokens : Nat
  completionTokens : Nat
  totalTokens : Nat
deriving DecidableEq, Repr

/-- providers.FunctionCall. -/
structure FunctionCall where
  name : String
  arguments : String
deriving DecidableEq, Repr

/-- providers.ToolCall; arguments is none when the Go map is nil (e.g. after a
failed json.Unmarshal of the accumulated tool input). -/
structure ToolCall where
  id : String
  type : String
  name : String
  function : Option FunctionCall
  arguments : Option Args
deriving DecidableEq, Repr

/-- providers.Response. -/
structure Response where
  content : String
  toolCalls : List ToolCall
  usage : Usage
deriving DecidableEq, Repr

/-- providers.Message. -/
structure Message where
  role : String
  content : String
  toolCalls : List ToolCall
  toolCallId : String
deriving DecidableEq, Repr

/-- providers.StreamEvent (tagged by the type field, carrying only the fields
relevant to that tag). -/
structure StreamEvent where
  type : String
  text : String := ""
  toolId : String := ""
  name : String := ""
  input : String := ""
  usage : Option Usage := none
  error : String := ""
deriving DecidableEq, Repr

/-- One parsed SSE wire event, at the granularity at which parseSSEStream
dispatches: the event name from the event line together with the fields that
the corresponding json.Unmarshal extracts from the data line. -/
inductive SSEEvent where
  | messageStart (inputTokens : Nat)
  | contentBlockStart (index : Nat) (blockType : String) (id : String) (name : String)
  | contentBlockDelta (index : Nat) (deltaType : String) (text : String) (partialJson : String)
  | contentBlockStop (index : Nat)
  | messageDelta (stopReason : String) (outputTokens : Nat)
  | messageStop
  | errorEvent (etype : String) (message : String)
  | unknown
deriving DecidableEq, Repr

/-- The per-index tool-call accumulator of parseSSEStream. -/
structure ToolCallAccum where
  id : String
  name : String
  inputJSON : String
deriving DecidableEq, Repr

/-- The decoder state: result accumulator, the index-keyed accumulator map, and
the list of StreamEvents delivered to the callback so far (in order). -/
structure SSEState where
  result : Response
  toolAccums : List (Nat × ToolCallAccum)
  events : List StreamEvent
deriving DecidableEq, Repr

/-- Model of Go map assignment m[k] = v on an association list. -/
def assocSet {α β : Type} [DecidableEq α] : List (α × β) → α → β → List (α × β)
  | [], k, v => [(k, v)]
  | (k0, v0) :: t, k, v => if k0 = k then (k, v) :: t else (k0, v0) :: assocSet t k v

/-- Model of mutating the value stored at key k, when present. -/
def assocUpdate {α β : Type} [DecidableEq α] (f : β → β) : List (α × β) → α → List (α × β)
  | [], _ => []
  | (k0, v0) :: t, k => if k0 = k then (k0, f v0) :: t else (k0, v0) :: assocUpdate f t k

/-- Model of Go map lookup m[k]. -/
def assocGet {α β : Type} [DecidableEq α] : List (α × β) → α → Option β
  | [], _ => none
  | (k0, v0) :: t, k => if k0 = k then some v0 else assocGet t k

/-- One non-error transition of the parseSSEStream switch.  jp models
json.Unmarshal of the concatenated partial tool-input JSON into an arguments
map (none models a nil map after a parse failure). -/
def sseStepOk (jp : String → Option Args) (st : SSEState) : SSEEvent → SSEState
  | .messageStart n =>
      { st with result := { st.result with usage := { st.result.usage with promptTokens := n } } }
  | .contentBlockStart i bt id name =>
      if bt = "tool_use" then
        { st with
            toolAccums := assocSet st.toolAccums i ⟨id, name, ""⟩,
            events := st.events ++ [{ type := "tool_start", toolId := id, name := name }] }
      else st
  | .contentBlockDelta i dt txt pj =>
      if dt = "text_delta" then
        { st with
            result := { st.result with content := st.result.content ++ txt },
            events := st.events ++ [{ type := "text", text := txt }] }
      else if dt = "input_json_delta" then
        { st with
            toolAccums := assocUpdate (fun a => { a with inputJSON := a.inputJSON ++ pj }) st.toolAccums i,
            events := st.events ++ [{ type := "tool_delta", input := pj }] }
      else st
  | .contentBlockStop i =>
      match assocGet st.toolAccums i with
      | some tc =>
          { st with
              result := { st.result with toolCalls := st.result.toolCalls ++
                [{ id := tc.id, type := "function", name := tc.name,
                   function := some ⟨tc.name, tc.inputJSON⟩, arguments := jp tc.inputJSON }] },
              events := st.events ++ [{ type := "tool_end", toolId := tc.id, name := tc.name }] }
      | none => st
  | .messageDelta _ out =>
      { st with result := { st.result with usage :=
          { promptTokens := st.result.usage.promptTokens, completionTokens := out,
            totalTokens := st.result.usage.promptTokens + out } } }
  | .messageStop =>
      { st with events := st.events ++ [{ type := "done", usage := some st.result.usage }] }
  | .errorEvent _ _ => st
  | .unknown => st

/-- The payload of an error event, none for every other event. -/
def errPayload : SSEEvent → Option (String × String)
  | .errorEvent t m => some (t, m)
  | _ => none

/-- The event/data read loop of parseSSEStream: processes events in order; an
error event emits an error StreamEvent and returns a hard error immediately,
discarding the accumulated Response. -/
def processSSE (jp : String → Option Args) : List SSEEvent → SSEState → List StreamEvent × Except String Response
  | [], st => (st.events, Except.ok st.result)
  | e :: rest, st =>
      match errPayload e with
      | some (t, m) =>
          (st.events ++ [{ type := "error", error := t ++ ": " ++ m }],
           Except.error ("anthropic stream error: " ++ t ++ ": " ++ m))
      | none => processSSE jp rest (sseStepOk jp st e)

/-- The initial decoder state (a zero Response, no accumulators, no events). -/
def initSSEState : SSEState := ⟨⟨"", [], ⟨0, 0, 0⟩⟩, [], []⟩

/-- parseSSEStream: decode a full event sequence, returning the callback event
trace and either the aggregated Response or a hard error. -/
def parseSSEStream (jp : String → Option Args) (events : List SSEEvent) :
    List StreamEvent × Except String Response :=
  processSSE jp events initSSEState

/-- tools.Registry: the name-to-tool map (a tool is modelled by its Execute
behaviour on an argument map) and the lowercased-alias-to-canonical-name map,
both as association lists with Go map overwrite semantics. -/
structure Registry where
  tools : List (String × (Option Args → Except String String))
  aliases : List (String × String)

/-- Registry.RegisterAlias: stores the alias lowercased. -/
def Registry.registerAlias (r : Registry) (aliasName canonical : String) : Registry :=
  { r with aliases := assocSet r.aliases (lowerStr aliasName) canonical }

/-- Registry.ResolveName / resolveAlias: case-insensitive alias lookup,
returning the name unchanged when it is not an alias. -/
def Registry.ResolveName (r : Registry) (name : String) : String :=
  match assocGet r.aliases (lowerStr name) with
  | some canonical => canonical
  | none => name

/-- Registry.Execute: resolve aliases, look the tool up, and run it; an
unresolved name yields the distinguished tool-not-found error text listing the
registered canonical names. -/
def Registry.Execute (r : Registry) (name : String) (args : Option Args) : Except String String :=
  match assocGet r.tools (r.ResolveName name) with
  | some t => t args
  | none =>
      Except.error ("tool not found: " ++ name ++ ". Available tools: " ++
        String.intercalate ", " (r.tools.map Prod.fst))

/-- The aliases registered by agent.NewLoop for Claude model compatibility. -/
def defaultAliasPairs : List (String × String) :=
  [("Bash", "exec"), ("bash", "exec"), ("Read", "read_file"), ("Write", "write_file"),
   ("Edit", "edit_file"), ("Glob", "glob"), ("Grep", "grep"), ("LS", "list_dir"),
   ("WebSearch", "web_search")]

/-- A registry holding the NewLoop alias table over a given tool table. -/
def newLoopRegistry (toolTable : List (String × (Option Args → Except String String))) : Registry :=
  defaultAliasPairs.foldl (fun r p => r.registerAlias p.1 p.2) ⟨toolTable, []⟩

/-- An entry of the external-effect trace of a loop run: interruptible backoff
waits (in seconds) and the calls into the memory collaborator. -/
inductive Effect where
  | wait (seconds : Nat)
  | writeResumeTrigger (sessionId : String) (reason : String)
  | writeResumePrompt (content : String)
  | appendToday (note : String)
  | clearResumeTrigger
deriving DecidableEq, Repr

/-- The observable outcome of a loop run: the final transcript, the effect
trace, the number of provider calls consumed, and the returned error if any. -/
structure LoopOutput where
  messages : List Message
  effects : List Effect
  calls : Nat
  result : Except String Unit
deriving Repr

/-- The collaborators and configuration of one loop run: the provider is a
script assigning an outcome to each successive ChatStream invocation; the
memory collaborator's GetMemoryContext and the wall clock are parameters. -/
structure LoopEnv where
  provider : Nat → Except String Response
  registry : Registry
  maxToolIterations : Nat
  strategicCompactEnabled : Bool
  boundaryPatterns : List String
  memoryCtx : String
  unixSec : Nat
  nowHMS : String

/-- detectContextOverflow: substring scan of the lowercased error message
against the overflow marker list. -/
def detectContextOverflow (e : String) : Bool :=
  ["context_length_exceeded", "maximum context length", "token limit", "too many tokens"].any
    (fun pat => strContains (lowerStr e) pat)

/-- The rate-limit classification applied inside the retry loop. -/
def isRateLimitError (e : String) : Bool :=
  strContains (lowerStr e) "rate_limit" || strContains (lowerStr e) "too many" ||
    strContains (lowerStr e) "429"

/-- The model-call retry loop (for attempt < 3): call the provider; stop on
success or on a non-rate-limited error; on a rate-limited error wait
5*(attempt+1) seconds and retry, surfacing the last error after the final
attempt.  Returns the next provider-call index, the backoff waits performed (in
order, in seconds), and the final outcome. -/
def retryCall (f : Nat → Except String Response) : Nat → Nat → Nat → Nat × List Nat × Except String Response
  | 0, ci, _ => (ci, [], Except.error "")
  | fuel + 1, ci, attempt =>
      match f ci with
      | Except.ok r => (ci + 1, [], Except.ok r)
      | Except.error e =>
          if isRateLimitError e then
            let w := 5 * (attempt + 1)
            if fuel = 0 then (ci + 1, [w], Except.error e)
            else
              let rest := retryCall f fuel (ci + 1) (attempt + 1)
              (rest.1, w :: rest.2.1, rest.2.2)
          else (ci + 1, [], Except.error e)

/-- generateGapAnalysisPrompt. -/
def gapAnalysisPrompt (memoryCtx : String) : String :=
  "# Session Recovery - Gap Analysis\n\nYou are resuming from a context overflow. Before continuing:\n\n1. **Review Memory Context** below\n2. **Identify Knowledge Gaps** - What information might be missing?\n3. **Read Relevant Files** - Use file tools to recover context\n4. **Continue the Task** - Resume where you left off\n\n## Important\n- Do NOT make assumptions about previous work\n- Verify file states before making changes\n- Check git status if applicable\n\n---\n\n" ++ memoryCtx ++ "\n\n---\n\nPlease perform gap analysis and then continue the task.\n"

/-- The daily-log note written by handleContextOverflow. -/
def overflowNote (nowHMS sessionId : String) : String :=
  "## Context Overflow Recovery\n\nTime: " ++ nowHMS ++ "\nSession: " ++ sessionId ++
    "\n\nContext overflow detected. Resume trigger created.\nRun 'domiclaw resume' to continue.\n"

/-- The distinguished error returned by handleContextOverflow. -/
def overflowErrText : String := "context overflow - run 'domiclaw resume' to continue"

/-- The memory-collaborator calls performed by handleContextOverflow, in
order: resume trigger, gap-analysis resume prompt, daily note. -/
def overflowEffects (env : LoopEnv) : List Effect :=
  [Effect.writeResumeTrigger ("session_" ++ toString env.unixSec) "context_overflow",
   Effect.writeResumePrompt (gapAnalysisPrompt env.memoryCtx),
   Effect.appendToday (overflowNote env.nowHMS ("session_" ++ toString env.unixSec))]

/-- The loop-breaker signature of an iteration, computed from the first tool
call exactly as marshalArgs(tc.Arguments) + ":" + tc.Name (the name as issued
by the model, before alias resolution). -/
def sigOf (tc : ToolCall) : String := marshalArgs tc.arguments ++ ":" ++ tc.name

/-- The synthetic corrective user message injected by runAgentLoop. -/
def breakerText : String :=
  "You are repeating the same tool call. Please use the results you already have and provide your final answer. Do not make any more tool calls."

/-- The synthetic corrective user message injected by runInteractiveLoop. -/
def breakerTextInteractive : String :=
  "You are repeating the same tool call. Please use the results you already have and provide your final answer."

/-- A ToolCall as recorded into the transcript's assistant message: same id,
arguments and function payload, with the name resolved to its canonical
registry name. -/
def resolvedToolCall (r : Registry) (tc : ToolCall) : ToolCall :=
  { id := tc.id, type := "function", name := r.ResolveName tc.name,
    function := tc.function, arguments := tc.arguments }

/-- The assistant message appended when a response carries tool calls. -/
def assistantToolMsg (r : Registry) (resp : Response) : Message :=
  { role := "assistant", content := resp.content,
    toolCalls := resp.toolCalls.map (resolvedToolCall r), toolCallId := "" }

/-- The tool-result message for one requested call: the Execute result text,
or "Error: " followed by the error message when the tool fails; linked to the
call by id. -/
def toolResultMsg (r : Registry) (tc : ToolCall) : Message :=
  match r.Execute tc.name tc.arguments with
  | Except.ok result => { role := "tool", content := result, toolCalls := [], toolCallId := tc.id }
  | Except.error e => { role := "tool", content := "Error: " ++ e, toolCalls := [], toolCallId := tc.id }

/-- The tool-result messages of an iteration, one per call, in issue order. -/
def toolResultMsgs (r : Registry) (tcs : List ToolCall) : List Message :=
  tcs.map (toolResultMsg r)

/-- The loop-breaker update of runAgentLoop and runInteractiveLoop: given the
previous signature and repeat count and the current first-call signature,
returns (messages appended, new signature, new repeat count). -/
def breakerStep (breakerMsgText : String) (lastSig : String) (rc : Nat) (currentSig : String) :
    List Message × String × Nat :=
  if currentSig = lastSig then
    if rc + 1 ≥ 2 then
      ([{ role := "user", content := breakerMsgText, toolCalls := [], toolCallId := "" }], "", 0)
    else ([], lastSig, rc + 1)
  else ([], currentSig, 0)

/-- checkStrategicBoundary, gated as in runAgentLoop: when enabled and the
assistant text is non-empty, the first configured boundary pattern contained in
the text produces one daily-note append. -/
def boundaryEffects (env : LoopEnv) (content : String) : List Effect :=
  if env.strategicCompactEnabled && content ≠ "" then
    match env.boundaryPatterns.find? (fun pat => strContains content pat) with
    | some pat =>
        [Effect.appendToday ("## Strategic Boundary: " ++ pat ++ "\n\nDetected at " ++ env.nowHMS ++ "\n")]
    | none => []
  else []

/-- The iteration loop of runAgentLoop, recursing on the remaining iteration
budget (maxToolIterations - iteration).  State: provider-call index, last
first-call signature, repeat count, transcript, effect trace.  Reaching the
iteration cap returns success with the transcript as-is, exactly as the Go
loop falls through with a warning. -/
def runIterations (env : LoopEnv) : Nat → Nat → String → Nat → List Message → List Effect → LoopOutput
  | 0, ci, _, _, msgs, effs => ⟨msgs, effs, ci, Except.ok ()⟩
  | fuel + 1, ci, lastSig, rc, msgs, effs =>
      match retryCall env.provider 3 ci 0 with
      | (ci2, waits, Except.error e) =>
          if detectContextOverflow e then
            ⟨msgs, (effs ++ waits.map Effect.wait) ++ overflowEffects env, ci2, Except.error overflowErrText⟩
          else
            ⟨msgs, effs ++ waits.map Effect.wait, ci2, Except.error ("LLM call failed: " ++ e)⟩
      | (ci2, waits, Except.ok resp) =>
          match resp.toolCalls with
          | [] => ⟨msgs, effs ++ waits.map Effect.wait, ci2, Except.ok ()⟩
          | tc0 :: _ =>
              let msgs2 := (msgs ++ [assistantToolMsg env.registry resp]) ++
                toolResultMsgs env.registry resp.toolCalls
              let bs := breakerStep breakerText lastSig rc (sigOf tc0)
              runIterations env fuel ci2 bs.2.1 bs.2.2 (msgs2 ++ bs.1)
                ((effs ++ waits.map Effect.wait) ++ boundaryEffects env resp.content)

/-- buildSystemPrompt: the fixed instruction template around the registered
tool names, with the memory context appended when non-empty. -/
def buildSystemPrompt (env : LoopEnv) : String :=
  let toolNames := String.intercalate ", " (env.registry.tools.map Prod.fst)
  let basePrompt := "You are DomiClaw, an AI coding assistant. You help users with software engineering tasks.\n\nYou have the following tools available: " ++ toolNames ++ "\n\nTool usage:\n- Use \"exec\" to run shell commands (bash/sh). The argument is \"command\" (string).\n- Use \"read_file\" to read file contents. The argument is \"path\" (string).\n- Use \"write_file\" to create/overwrite files. Arguments: \"path\" and \"content\".\n- Use \"edit_file\" to make targeted edits. Arguments: \"path\", \"old_string\", \"new_string\".\n- Use \"list_dir\" to list directory contents. The argument is \"path\" (string).\n- Use \"glob\" to find files by pattern. The argument is \"pattern\" (string).\n- Use \"grep\" to search file contents. Arguments: \"pattern\" and optionally \"path\", \"include\".\n- Use \"web_search\" to search the web. The argument is \"query\" (string).\n\nIMPORTANT: Only use the tool names listed above. Do NOT use tool names like \"Bash\", \"Read\", \"Write\", etc.\n\nBe concise and helpful. Focus on completing the task efficiently.\n"
  if env.memoryCtx ≠ "" then basePrompt ++ "\n---\n\n" ++ env.memoryCtx else basePrompt

/-- buildInitialMessages: system prompt then the user prompt. -/
def buildInitialMessages (env : LoopEnv) (userPrompt : String) : List Message :=
  [{ role := "system", content := buildSystemPrompt env, toolCalls := [], toolCallId := "" },
   { role := "user", content := userPrompt, toolCalls := [], toolCallId := "" }]

/-- runAgentLoop: build the initial transcript and iterate up to the cap. -/
def runAgentLoop (env : LoopEnv) (userPrompt : String) : LoopOutput :=
  runIterations env env.maxToolIterations 0 "" 0 (buildInitialMessages env userPrompt) []

/-- The iteration loop of runInteractiveLoop: identical to runIterations
except that the terminal no-tool-calls state appends the assistant text to the
persistent history when non-empty, the corrective message omits the final
sentence, and there is no boundary scan. -/
def runInteractiveIterations (env : LoopEnv) : Nat → Nat → String → Nat → List Message → List Effect → LoopOutput
  | 0, ci, _, _, msgs, effs => ⟨msgs, effs, ci, Except.ok ()⟩
  | fuel + 1, ci, lastSig, rc, msgs, effs =>
      match retryCall env.provider 3 ci 0 with
      | (ci2, waits, Except.error e) =>
          if detectContextOverflow e then
            ⟨msgs, (effs ++ waits.map Effect.wait) ++ overflowEffects env, ci2, Except.error overflowErrText⟩
          else
            ⟨msgs, effs ++ waits.map Effect.wait, ci2, Except.error ("LLM call failed: " ++ e)⟩
      | (ci2, waits, Except.ok resp) =>
          match resp.toolCalls with
          | [] =>
              if resp.content ≠ "" then
                ⟨msgs ++ [{ role := "assistant", content := resp.content, toolCalls := [], toolCallId := "" }],
                 effs ++ waits.map Effect.wait, ci2, Except.ok ()⟩
              else ⟨msgs, effs ++ waits.map Effect.wait, ci2, Except.ok ()⟩
          | tc0 :: _ =>
              let msgs2 := (msgs ++ [assistantToolMsg env.registry resp]) ++
                toolResultMsgs env.registry resp.toolCalls
              let bs := breakerStep breakerTextInteractive lastSig rc (sigOf tc0)
              runInteractiveIterations env fuel ci2 bs.2.1 bs.2.2 (msgs2 ++ bs.1)
                (effs ++ waits.map Effect.wait)

/-- RunContinue: on the first call of a session the transcript is built from
scratch; later calls append one user message to the existing history. -/
def RunContinue (env : LoopEnv) (history : List Message) (userPrompt : String) : LoopOutput :=
  let msgs :=
    if history.length = 0 then buildInitialMessages env userPrompt
    else history ++ [{ role := "user", content := userPrompt, toolCalls := [], toolCallId := "" }]
  runInteractiveIterations env env.maxToolIterations 0 "" 0 msgs []

/-- The state of the memory collaborator's resume bookkeeping as Run observes
it: whether resume-trigger.json exists, and the contents of resume-prompt.md
(empty string when the file is missing or unreadable). -/
structure MemoryState where
  pendingResume : Bool
  resumePrompt : String
deriving DecidableEq, Repr

/-- Run: when a pending resume trigger exists and the stored resume prompt is
non-empty, the stored prompt replaces the caller's prompt and the trigger is
cleared before the loop starts; otherwise the caller's prompt is used and the
trigger (if any) is left in place. -/
def Run (env : LoopEnv) (mem : MemoryState) (initialPrompt : String) : LoopOutput :=
  if mem.pendingResume then
    if mem.resumePrompt ≠ "" then
      let out := runAgentLoop env mem.resumePrompt
      ⟨out.messages, Effect.clearResumeTrigger :: out.effects, out.calls, out.result⟩
    else runAgentLoop env initialPrompt
  else runAgentLoop env initialPrompt

/-! ### Basic lemmas about the decoder loop -/

theorem processSSE_cons_ok (jp : String → Option Args) (e : SSEEvent) (rest : List SSEEvent)
    (st : SSEState) (h : errPayload e = none) :
    processSSE jp (e :: rest) st = processSSE jp rest (sseStepOk jp st e) := by
  simp only [processSSE, h]

theorem processSSE_error_after (jp : String → Option Args) (t m : String) :
    ∀ (es : List SSEEvent) (rest : List SSEEvent) (st : SSEState),
      es.all (fun e => (errPayload e).isNone) = true →
      processSSE jp (es ++ SSEEvent.errorEvent t m :: rest) st =
        ((es.foldl (sseStepOk jp) st).events ++ [{ type := "error", error := t ++ ": " ++ m }],
          Except.error ("anthropic stream error: " ++ t ++ ": " ++ m)) := by
  intro es
  induction es with
  | nil => intro rest st _; simp [processSSE, errPayload]
  | cons e es ih =>
      intro rest st h
      simp only [List.all_cons, Bool.and_eq_true, Option.isNone_iff_eq_none] at h
      rw [List.cons_append, processSSE_cons_ok jp e _ st h.1, List.foldl_cons]
      exact ih rest (sseStepOk jp st e) (by simpa using h.2)

/-- C8: when the streaming decoder meets an SSE error event, it emits an error
StreamEvent to the callback (after the events already emitted for the prefix)
and the decode operation returns a hard error immediately: the accumulated
Response (text, tool calls, usage) is discarded — the error side of the sum
carries only the error string — and the events after the error are never
processed. -/
theorem C8_error_event_aborts_stream (jp : String → Option Args) (es : List SSEEvent)
    (t m : String) (rest : List SSEEvent)
    (h : es.all (fun e => (errPayload e).isNone) = true) :
    parseSSEStream jp (es ++ SSEEvent.errorEvent t m :: rest) =
      ((es.foldl (sseStepOk jp) initSSEState).events ++ [{ type := "error", error := t ++ ": " ++ m }],
        Except.error ("anthropic stream error: " ++ t ++ ": " ++ m)) :=
  processSSE_error_after jp t m es rest initSSEState h

/-- Witness for C8 at a concrete stream: a message_start and a text delta,
then an error event followed by a message_stop that is never processed. -/
theorem C8_error_event_aborts_stream_witness :
    ([SSEEvent.messageStart 5, SSEEvent.contentBlockDelta 0 "text_delta" "Hello" ""].all
        (fun e => (errPayload e).isNone) = true) ∧
    parseSSEStream (fun s => some [("raw", s)])
        ([SSEEvent.messageStart 5, SSEEvent.contentBlockDelta 0 "text_delta" "Hello" ""] ++
          SSEEvent.errorEvent "overloaded_error" "Overloaded" :: [SSEEvent.messageStop]) =
      (([SSEEvent.messageStart 5, SSEEvent.contentBlockDelta 0 "text_delta" "Hello" ""].foldl
          (sseStepOk (fun s => some [("raw", s)])) initSSEState).events ++
          [{ type := "error", error := "overloaded_error" ++ ": " ++ "Overloaded" }],
        Except.error ("anthropic stream error: " ++ "overloaded_error" ++ ": " ++ "Overloaded")) :=
  ⟨by decide,
   C8_error_event_aborts_stream (fun s => some [("raw", s)])
     [SSEEvent.messageStart 5, SSEEvent.contentBlockDelta 0 "text_delta" "Hello" ""]
     "overloaded_error" "Overloaded" [SSEEvent.messageStop] (by decide)⟩

/-! ### Basic lemmas about the agent loop -/

theorem runIterations_messages_prefix (env : LoopEnv) :
    ∀ (fuel ci : Nat) (sig : String) (rc : Nat) (msgs : List Message) (effs : List Effect),
      ∃ tl, (runIterations env fuel ci sig rc msgs effs).messages = msgs ++ tl := by
  intro fuel
  induction fuel with
  | zero => intro ci sig rc msgs effs; exact ⟨[], by simp [runIterations]⟩
  | succ n ih =>
      intro ci sig rc msgs effs
      rcases h : retryCall env.provider 3 ci 0 with ⟨ci2, waits, out⟩
      cases out with
      | error e =>
          cases hov : detectContextOverflow e <;> exact ⟨[], by simp [runIterations, h, hov]⟩
      | ok resp =>
          cases htc : resp.toolCalls with
          | nil => exact ⟨[], by simp [runIterations, h, htc]⟩
          | cons tc0 rest =>
              obtain ⟨tl, htl⟩ := ih ci2
                (breakerStep breakerText sig rc (sigOf tc0)).2.1
                (breakerStep breakerText sig rc (sigOf tc0)).2.2
                (((msgs ++ [assistantToolMsg env.registry resp]) ++
                    toolResultMsgs env.registry resp.toolCalls) ++
                  (breakerStep breakerText sig rc (sigOf tc0)).1)
                ((effs ++ waits.map Effect.wait) ++ boundaryEffects env resp.content)
              refine ⟨[assistantToolMsg env.registry resp] ++ toolResultMsgs env.registry resp.toolCalls ++
                (breakerStep breakerText sig rc (sigOf tc0)).1 ++ tl, ?_⟩
              simp only [runIterations, h, htc]
              rw [← htc]
              rw [htl]
              simp [List.append_assoc]

theorem boundaryEffects_no_clear (env : LoopEnv) (c : String) :
    Effect.clearResumeTrigger ∉ boundaryEffects env c := by
  unfold boundaryEffects
  split
  · split <;> simp
  · simp

theorem runIterations_no_clear (env : LoopEnv) :
    ∀ (fuel ci : Nat) (sig : String) (rc : Nat) (msgs : List Message) (effs : List Effect),
      Effect.clearResumeTrigger ∉ effs →
      Effect.clearResumeTrigger ∉ (runIterations env fuel ci sig rc msgs effs).effects := by
  intro fuel
  induction fuel with
  | zero => intro ci sig rc msgs effs h; simpa [runIterations] using h
  | succ n ih =>
      intro ci sig rc msgs effs h
      rcases hr : retryCall env.provider 3 ci 0 with ⟨ci2, waits, out⟩
      cases out with
      | error e =>
          cases hov : detectContextOverflow e <;>
            simp_all [runIterations, hr, hov, overflowEffects, List.mem_append]
      | ok resp =>
          cases htc : resp.toolCalls with
          | nil => simp_all [runIterations, hr, htc, List.mem_append]
          | cons tc0 rest =>
              simp only [runIterations, hr, htc]
              rw [← htc]
              apply ih
              simp only [List.mem_append]
              push_neg
              refine ⟨⟨h, ?_⟩, boundaryEffects_no_clear env resp.content⟩
              simp

/-- C9: when Run finds a pending resume trigger and the stored resume prompt
is non-empty, the caller's prompt is discarded — the transcript's user message
(position 1, after the system message) carries the stored resume prompt — and
the trigger is cleared before any loop effect happens (the clear is the first
effect of the run).  When the trigger is pending but the stored prompt is
empty, the caller's prompt is kept and the trigger is never cleared. -/
theorem C9_pending_resume_replaces_prompt (env : LoopEnv) (mem : MemoryState) (p : String)
    (hp : mem.pendingResume = true) :
    (mem.resumePrompt ≠ "" →
       (Run env mem p).messages.get? 1 =
         some { role := "user", content := mem.resumePrompt, toolCalls := [], toolCallId := "" } ∧
       (Run env mem p).effects.head? = some Effect.clearResumeTrigger) ∧
    (mem.resumePrompt = "" →
       (Run env mem p).messages.get? 1 =
         some { role := "user", content := p, toolCalls := [], toolCallId := "" } ∧
       Effect.clearResumeTrigger ∉ (Run env mem p).effects) := by
  have hget : ∀ q : String, (runAgentLoop env q).messages.get? 1 =
      some { role := "user", content := q, toolCalls := [], toolCallId := "" } := by
    intro q
    obtain ⟨tl, htl⟩ := runIterations_messages_prefix env env.maxToolIterations 0 "" 0
      (buildInitialMessages env q) []
    rw [runAgentLoop, htl, List.get?_append (by simp [buildInitialMessages])]
    simp [buildInitialMessages]
  constructor
  · intro hne
    have : Run env mem p =
        ⟨(runAgentLoop env mem.resumePrompt).messages,
         Effect.clearResumeTrigger :: (runAgentLoop env mem.resumePrompt).effects,
         (runAgentLoop env mem.resumePrompt).calls,
         (runAgentLoop env mem.resumePrompt).result⟩ := by
      simp [Run, hp, hne]
    rw [this]
    exact ⟨hget mem.resumePrompt, rfl⟩
  · intro he
    have : Run env mem p = runAgentLoop env p := by simp [Run, hp, he]
    rw [this]
    exact ⟨hget p, runIterations_no_clear env env.maxToolIterations 0 "" 0 _ [] (by simp)⟩

/-- A concrete loop environment: a given provider script, an empty registry,
and fixed configuration, used to instantiate the loop theorems. -/
def mkEnv (script : Nat → Except String Response) (maxIter : Nat) : LoopEnv :=
  { provider := script, registry := ⟨[], []⟩, maxToolIterations := maxIter,
    strategicCompactEnabled := false, boundaryPatterns := [], memoryCtx := "",
    unixSec := 1700000000, nowHMS := "12:00:00" }

/-- A provider script answering every call with a fixed tool-free response. -/
def scriptPlain : Nat → Except String Response :=
  fun _ => Except.ok { content := "done", toolCalls := [], usage := ⟨1, 2, 3⟩ }

/-- Witness for C9 at a concrete environment and memory state, in both the
non-empty-resume-prompt and the empty-resume-prompt case. -/
theorem C9_pending_resume_replaces_prompt_witness :
    ((MemoryState.mk true "resume it").pendingResume = true ∧
      ((Run (mkEnv scriptPlain 4) (MemoryState.mk true "resume it") "orig").messages.get? 1 =
         some { role := "user", content := "resume it", toolCalls := [], toolCallId := "" } ∧
       (Run (mkEnv scriptPlain 4) (MemoryState.mk true "resume it") "orig").effects.head? =
         some Effect.clearResumeTrigger)) ∧
    ((Run (mkEnv scriptPlain 4) (MemoryState.mk true "") "orig").messages.get? 1 =
         some { role := "user", content := "orig", toolCalls := [], toolCallId := "" } ∧
       Effect.clearResumeTrigger ∉ (Run (mkEnv scriptPlain 4) (MemoryState.mk true "") "orig").effects) :=
  ⟨⟨rfl, (C9_pending_resume_replaces_prompt (mkEnv scriptPlain 4) (MemoryState.mk true "resume it")
      "orig" rfl).1 (by decide)⟩,
   (C9_pending_resume_replaces_prompt (mkEnv scriptPlain 4) (MemoryState.mk true "") "orig" rfl).2 rfl⟩

/-! ### Unfolding lemmas for the retry loop and single iterations -/

theorem retryCall_succ_ok (f : Nat → Except String Response) (fuel ci a : Nat) (r : Response)
    (h : f ci = Except.ok r) : retryCall f (fuel + 1) ci a = (ci + 1, [], Except.ok r) := by
  simp [retryCall, h]

theorem retryCall_succ_err_norl (f : Nat → Except String Response) (fuel ci a : Nat) (e : String)
    (h : f ci = Except.error e) (hrl : isRateLimitError e = false) :
    retryCall f (fuel + 1) ci a = (ci + 1, [], Except.error e) := by
  simp [retryCall, h, hrl]

theorem retryCall_one_err_rl (f : Nat → Except String Response) (ci a : Nat) (e : String)
    (h : f ci = Except.error e) (hrl : isRateLimitError e = true) :
    retryCall f 1 ci a = (ci + 1, [5 * (a + 1)], Except.error e) := by
  simp [retryCall, h, hrl]

theorem retryCall_succ_err_rl (f : Nat → Except String Response) (fuel ci a : Nat) (e : String)
    (h : f ci = Except.error e) (hrl : isRateLimitError e = true) (hf : fuel ≠ 0) :
    retryCall f (fuel + 1) ci a =
      ((retryCall f fuel (ci + 1) (a + 1)).1,
        5 * (a + 1) :: (retryCall f fuel (ci + 1) (a + 1)).2.1,
        (retryCall f fuel (ci + 1) (a + 1)).2.2) := by
  simp [retryCall, h, hrl, hf]

theorem runIterations_terminal (env : LoopEnv) (fuel ci ci2 : Nat) (waits : List Nat)
    (sig : String) (rc : Nat) (msgs : List Message) (effs : List Effect) (c : String) (u : Usage)
    (h : retryCall env.provider 3 ci 0 = (ci2, waits, Except.ok ⟨c, [], u⟩)) :
    runIterations env (fuel + 1) ci sig rc msgs effs =
      ⟨msgs, effs ++ waits.map Effect.wait, ci2, Except.ok ()⟩ := by
  simp [runIterations, h]

theorem runIterations_overflow (env : LoopEnv) (fuel ci ci2 : Nat) (waits : List Nat)
    (sig : String) (rc : Nat) (msgs : List Message) (effs : List Effect) (e : String)
    (h : retryCall env.provider 3 ci 0 = (ci2, waits, Except.error e))
    (hov : detectContextOverflow e = true) :
    runIterations env (fuel + 1) ci sig rc msgs effs =
      ⟨msgs, (effs ++ waits.map Effect.wait) ++ overflowEffects env, ci2,
        Except.error overflowErrText⟩ := by
  simp [runIterations, h, hov]

theorem runIterations_generic_error (env : LoopEnv) (fuel ci ci2 : Nat) (waits : List Nat)
    (sig : String) (rc : Nat) (msgs : List Message) (effs : List Effect) (e : String)
    (h : retryCall env.provider 3 ci 0 = (ci2, waits, Except.error e))
    (hov : detectContextOverflow e = false) :
    runIterations env (fuel + 1) ci sig rc msgs effs =
      ⟨msgs, effs ++ waits.map Effect.wait, ci2, Except.error ("LLM call failed: " ++ e)⟩ := by
  simp [runIterations, h, hov]

theorem runIterations_tools (env : LoopEnv) (fuel ci ci2 : Nat) (waits : List Nat)
    (sig : String) (rc : Nat) (msgs : List Message) (effs : List Effect) (resp : Response)
    (tc0 : ToolCall) (rest : List ToolCall)
    (h : retryCall env.provider 3 ci 0 = (ci2, waits, Except.ok resp))
    (htc : resp.toolCalls = tc0 :: rest) :
    runIterations env (fuel + 1) ci sig rc msgs effs =
      runIterations env fuel ci2 (breakerStep breakerText sig rc (sigOf tc0)).2.1
        (breakerStep breakerText sig rc (sigOf tc0)).2.2
        (((msgs ++ [assistantToolMsg env.registry resp]) ++
            toolResultMsgs env.registry resp.toolCalls) ++
          (breakerStep breakerText sig rc (sigOf tc0)).1)
        ((effs ++ waits.map Effect.wait) ++ boundaryEffects env resp.content) := by
  simp only [runIterations, h, htc]

theorem runInteractiveIterations_terminal_text (env : LoopEnv) (fuel ci ci2 : Nat)
    (waits : List Nat) (sig : String) (rc : Nat) (msgs : List Message) (effs : List Effect)
    (c : String) (u : Usage)
    (h : retryCall env.provider 3 ci 0 = (ci2, waits, Except.ok ⟨c, [], u⟩)) (hc : c ≠ "") :
    runInteractiveIterations env (fuel + 1) ci sig rc msgs effs =
      ⟨msgs ++ [{ role := "assistant", content := c, toolCalls := [], toolCallId := "" }],
        effs ++ waits.map Effect.wait, ci2, Except.ok ()⟩ := by
  simp [runInteractiveIterations, h, hc]

theorem runInteractiveIterations_terminal_empty (env : LoopEnv) (fuel ci ci2 : Nat)
    (waits : List Nat) (sig : String) (rc : Nat) (msgs : List Message) (effs : List Effect)
    (u : Usage)
    (h : retryCall env.provider 3 ci 0 = (ci2, waits, Except.ok ⟨"", [], u⟩)) :
    runInteractiveIterations env (fuel + 1) ci sig rc msgs effs =
      ⟨msgs, effs ++ waits.map Effect.wait, ci2, Except.ok ()⟩ := by
  simp [runInteractiveIterations, h]

deriving instance DecidableEq for Except

/-- C5 counterexample: a run whose first model response is tool-free, with
non-empty assistant text.  In runAgentLoop (the Run path the claim's cited
lines point at) the loop terminates successfully in one iteration but the
assistant text is never appended: the transcript still has length 2
(system + user), not 3 as claimed — the text was only streamed to stdout. -/
theorem C5_counterexample :
    (runAgentLoop (mkEnv scriptPlain 10) "task").result = Except.ok () ∧
    (runAgentLoop (mkEnv scriptPlain 10) "task").calls = 1 ∧
    (runAgentLoop (mkEnv scriptPlain 10) "task").messages.length = 2 ∧
    ¬ (runAgentLoop (mkEnv scriptPlain 10) "task").messages.length = 3 := by
  decide

/-- C5 amended: when the first model response carries zero tool calls the loop
terminates successfully after one provider call.  In the single-shot loop
(runAgentLoop) the transcript stays exactly the initial [system, user] pair of
length 2 — the assistant text is not appended.  In the interactive loop
(RunContinue with empty history), the assistant text is appended when and only
when it is non-empty, giving transcript length 3 (length 2 when empty). -/
theorem C5_terminal_iteration_amended (env : LoopEnv) (p c : String) (u : Usage) (m : Nat)
    (hm : env.maxToolIterations = m + 1)
    (h0 : env.provider 0 = Except.ok ⟨c, [], u⟩) :
    ((runAgentLoop env p).messages = buildInitialMessages env p ∧
     (buildInitialMessages env p).length = 2 ∧
     (runAgentLoop env p).calls = 1 ∧
     (runAgentLoop env p).result = Except.ok ()) ∧
    (c ≠ "" →
      (RunContinue env [] p).messages = buildInitialMessages env p ++
        [{ role := "assistant", content := c, toolCalls := [], toolCallId := "" }] ∧
      (RunContinue env [] p).messages.length = 3 ∧
      (RunContinue env [] p).calls = 1 ∧
      (RunContinue env [] p).result = Except.ok ()) ∧
    (c = "" →
      (RunContinue env [] p).messages = buildInitialMessages env p ∧
      (RunContinue env [] p).result = Except.ok ()) := by
  have hrc : retryCall env.provider 3 0 0 = (1, [], Except.ok ⟨c, [], u⟩) :=
    retryCall_succ_ok env.provider 2 0 0 _ h0
  have hrun : RunContinue env [] p =
      runInteractiveIterations env env.maxToolIterations 0 "" 0 (buildInitialMessages env p) [] := by
    simp [RunContinue]
  refine ⟨?_, ?_, ?_⟩
  · rw [runAgentLoop, hm, runIterations_terminal env m 0 1 [] "" 0 _ [] c u hrc]
    simp [buildInitialMessages]
  · intro hc
    rw [hrun, hm,
      runInteractiveIterations_terminal_text env m 0 1 [] "" 0 _ [] c u hrc hc]
    simp [buildInitialMessages]
  · intro hc
    subst hc
    rw [hrun, hm,
      runInteractiveIterations_terminal_empty env m 0 1 [] "" 0 _ [] u hrc]
    simp

/-- Witness for the amended C5 at a concrete environment (response text
"done", both the single-shot and the interactive loop). -/
theorem C5_terminal_iteration_amended_witness :
    ((runAgentLoop (mkEnv scriptPlain 4) "task").messages =
        buildInitialMessages (mkEnv scriptPlain 4) "task" ∧
     (buildInitialMessages (mkEnv scriptPlain 4) "task").length = 2 ∧
     (runAgentLoop (mkEnv scriptPlain 4) "task").calls = 1 ∧
     (runAgentLoop (mkEnv scriptPlain 4) "task").result = Except.ok ()) ∧
    ((RunContinue (mkEnv scriptPlain 4) [] "task").messages =
        buildInitialMessages (mkEnv scriptPlain 4) "task" ++
          [{ role := "assistant", content := "done", toolCalls := [], toolCallId := "" }] ∧
     (RunContinue (mkEnv scriptPlain 4) [] "task").messages.length = 3 ∧
     (RunContinue (mkEnv scriptPlain 4) [] "task").calls = 1 ∧
     (RunContinue (mkEnv scriptPlain 4) [] "task").result = Except.ok ()) :=
  ⟨(C5_terminal_iteration_amended (mkEnv scriptPlain 4) "task" "done" ⟨1, 2, 3⟩ 3 rfl rfl).1,
   (C5_terminal_iteration_amended (mkEnv scriptPlain 4) "task" "done" ⟨1, 2, 3⟩ 3 rfl rfl).2.1
     (by decide)⟩

theorem sigOf_ne_empty (tc : ToolCall) : sigOf tc ≠ "" := by
  unfold sigOf
  intro h
  have hlen := congrArg String.length h
  have h1 : (":" : String).length = 1 := rfl
  have h0 : ("" : String).length = 0 := rfl
  simp only [String.length_append, h1, h0] at hlen
  omega

theorem breakerStep_new (txt lastSig cur : String) (rc : Nat) (hne : cur ≠ lastSig) :
    breakerStep txt lastSig rc cur = ([], cur, 0) := by
  simp [breakerStep, hne]

theorem breakerStep_repeat (txt lastSig : String) (rc : Nat) (hrc : rc + 1 < 2) :
    breakerStep txt lastSig rc lastSig = ([], lastSig, rc + 1) := by
  simp [breakerStep]
  omega

theorem breakerStep_fire (txt lastSig : String) (rc : Nat) (hrc : rc + 1 ≥ 2) :
    breakerStep txt lastSig rc lastSig =
      ([{ role := "user", content := txt, toolCalls := [], toolCallId := "" }], "", 0) := by
  simp [breakerStep, hrc]

/-- C7: the ToolCalls recorded in the transcript's assistant message carry the
canonical (alias-resolved) registry names: for a first response with tool
calls and a tool-free second response, the final transcript is exactly the
initial messages, the assistant message whose toolCalls are the issued calls
with names mapped through Registry.ResolveName, and one tool-result message
per call.  Moreover resolution is case-insensitive and independent of the tool
table: for every tool table, the NewLoop alias registry resolves "Bash",
"bash" and "BASH" to "exec". -/
theorem C7_canonical_name_recorded (env : LoopEnv) (p c c2 : String) (u u2 : Usage) (m : Nat)
    (tc0 : ToolCall) (rest : List ToolCall)
    (hm : env.maxToolIterations = m + 2)
    (h0 : env.provider 0 = Except.ok ⟨c, tc0 :: rest, u⟩)
    (h1 : env.provider 1 = Except.ok ⟨c2, [], u2⟩) :
    ((runAgentLoop env p).messages =
      (buildInitialMessages env p ++
        [{ role := "assistant", content := c,
           toolCalls := (tc0 :: rest).map (resolvedToolCall env.registry), toolCallId := "" }]) ++
        toolResultMsgs env.registry (tc0 :: rest) ∧
     (runAgentLoop env p).result = Except.ok ()) ∧
    (∀ tbl, (newLoopRegistry tbl).ResolveName "Bash" = "exec" ∧
      (newLoopRegistry tbl).ResolveName "bash" = "exec" ∧
      (newLoopRegistry tbl).ResolveName "BASH" = "exec") := by
  have hm' : env.maxToolIterations = (m + 1) + 1 := hm
  have hrc0 : retryCall env.provider 3 0 0 = (1, [], Except.ok ⟨c, tc0 :: rest, u⟩) :=
    retryCall_succ_ok env.provider 2 0 0 _ h0
  have hrc1 : retryCall env.provider 3 1 0 = (2, [], Except.ok ⟨c2, [], u2⟩) :=
    retryCall_succ_ok env.provider 2 1 0 _ h1
  constructor
  · rw [runAgentLoop, hm',
      runIterations_tools env (m + 1) 0 1 [] "" 0 _ [] ⟨c, tc0 :: rest, u⟩ tc0 rest hrc0 rfl,
      breakerStep_new breakerText "" (sigOf tc0) 0 (sigOf_ne_empty tc0)]
    rw [runIterations_terminal env m 1 2 [] _ _ _ _ c2 u2 hrc1]
    simp [assistantToolMsg]
  · intro tbl
    exact ⟨rfl, rfl, rfl⟩

/-- A one-entry tool table whose only tool is a stub "exec". -/
def execStubTable : List (String × (Option Args → Except String String)) :=
  [("exec", fun _ => Except.ok "ran")]

/-- A tool call issued under the alias "Bash". -/
def tcBash : ToolCall := ⟨"call1", "function", "Bash", none, some [("command", "ls")]⟩

/-- A provider script: one "Bash" tool call, then a tool-free answer. -/
def scriptBash : Nat → Except String Response :=
  fun n => if n = 0 then Except.ok ⟨"", [tcBash], ⟨1, 1, 2⟩⟩ else Except.ok ⟨"ok", [], ⟨1, 1, 2⟩⟩

/-- The loop environment for the C7 witness: NewLoop aliases over the stub
exec tool. -/
def envBash : LoopEnv := { mkEnv scriptBash 4 with registry := newLoopRegistry execStubTable }

/-- Witness for C7: invoking the tool under the alias "Bash" records the
canonical name "exec" in the transcript's assistant message. -/
theorem C7_canonical_name_recorded_witness :
    ((runAgentLoop envBash "go").messages =
      (buildInitialMessages envBash "go" ++
        [{ role := "assistant", content := "",
           toolCalls := [tcBash].map (resolvedToolCall envBash.registry), toolCallId := "" }]) ++
        toolResultMsgs envBash.registry [tcBash] ∧
     (runAgentLoop envBash "go").result = Except.ok ()) ∧
    (resolvedToolCall envBash.registry tcBash).name = "exec" :=
  ⟨(C7_canonical_name_recorded envBash "go" "" "ok" ⟨1, 1, 2⟩ ⟨1, 1, 2⟩ 2 tcBash [] rfl rfl rfl).1,
   rfl⟩

theorem toolResultMsg_of_error (r : Registry) (tc : ToolCall) (emsg : String)
    (h : r.Execute tc.name tc.arguments = Except.error emsg) :
    toolResultMsg r tc =
      { role := "tool", content := "Error: " ++ emsg, toolCalls := [], toolCallId := tc.id } := by
  simp [toolResultMsg, h]

/-- C6: a tool call whose execution fails (including an unknown tool name)
produces a tool-role transcript message whose content is exactly "Error: "
followed by the error message, linked to the call id, and the loop proceeds to
the next iteration instead of terminating: with a tool-free second response
the run still ends in success after two provider calls. -/
theorem C6_tool_error_nonfatal (env : LoopEnv) (p c c2 : String) (u u2 : Usage) (m : Nat)
    (tc0 : ToolCall) (rest : List ToolCall) (tc : ToolCall) (emsg : String)
    (hm : env.maxToolIterations = m + 2)
    (h0 : env.provider 0 = Except.ok ⟨c, tc0 :: rest, u⟩)
    (h1 : env.provider 1 = Except.ok ⟨c2, [], u2⟩)
    (htc : tc ∈ tc0 :: rest)
    (hexec : env.registry.Execute tc.name tc.arguments = Except.error emsg) :
    ({ role := "tool", content := "Error: " ++ emsg, toolCalls := [], toolCallId := tc.id } :
        Message) ∈ (runAgentLoop env p).messages ∧
    (runAgentLoop env p).result = Except.ok () ∧
    (runAgentLoop env p).calls = 2 := by
  have hm' : env.maxToolIterations = (m + 1) + 1 := hm
  have hrc0 : retryCall env.provider 3 0 0 = (1, [], Except.ok ⟨c, tc0 :: rest, u⟩) :=
    retryCall_succ_ok env.provider 2 0 0 _ h0
  have hrc1 : retryCall env.provider 3 1 0 = (2, [], Except.ok ⟨c2, [], u2⟩) :=
    retryCall_succ_ok env.provider 2 1 0 _ h1
  rw [runAgentLoop, hm',
    runIterations_tools env (m + 1) 0 1 [] "" 0 _ [] ⟨c, tc0 :: rest, u⟩ tc0 rest hrc0 rfl,
    breakerStep_new breakerText "" (sigOf tc0) 0 (sigOf_ne_empty tc0),
    runIterations_terminal env m 1 2 [] _ _ _ _ c2 u2 hrc1]
  refine ⟨?_, rfl, rfl⟩
  simp only [List.append_nil, List.mem_append]
  right
  rw [← toolResultMsg_of_error env.registry tc emsg hexec]
  exact List.mem_map_of_mem _ htc

/-- Witness for C6: the "Bash" call against an empty registry is an unknown
tool; its failure is recorded as an "Error: tool not found ..." tool message
and the run still succeeds. -/
theorem C6_tool_error_nonfatal_witness :
    ({ role := "tool", content := "Error: " ++ "tool not found: Bash. Available tools: ",
        toolCalls := [], toolCallId := "call1" } : Message) ∈
      (runAgentLoop (mkEnv scriptBash 4) "go").messages ∧
    (runAgentLoop (mkEnv scriptBash 4) "go").result = Except.ok () ∧
    (runAgentLoop (mkEnv scriptBash 4) "go").calls = 2 :=
  C6_tool_error_nonfatal (mkEnv scriptBash 4) "go" "" "ok" ⟨1, 1, 2⟩ ⟨1, 1, 2⟩ 2 tcBash [] tcBash
    "tool not found: Bash. Available tools: " rfl rfl rfl (by decide) (by decide)

/-- C3: whenever the model-call-with-retry step of an iteration fails with an
error classified as context overflow (its lowercased message contains one of
the configured overflow markers, in particular "maximum context length"), the
run performs the full recovery protocol — it writes a resume trigger with the
generated session id and reason "context_overflow", writes the gap-analysis
resume prompt, appends the note to the day's log — and returns the
distinguished overflow error instructing the operator to run the resume path,
never a generic LLM-call failure. -/
theorem C3_overflow_recovery (env : LoopEnv) (p e : String) (ci : Nat) (ws : List Nat) (m : Nat)
    (hm : env.maxToolIterations = m + 1)
    (hr : retryCall env.provider 3 0 0 = (ci, ws, Except.error e))
    (hov : detectContextOverflow e = true) :
    (runAgentLoop env p).result = Except.error overflowErrText ∧
    (runAgentLoop env p).effects = ws.map Effect.wait ++ overflowEffects env ∧
    Effect.writeResumeTrigger ("session_" ++ toString env.unixSec) "context_overflow" ∈
      (runAgentLoop env p).effects ∧
    Effect.writeResumePrompt (gapAnalysisPrompt env.memoryCtx) ∈ (runAgentLoop env p).effects ∧
    Effect.appendToday (overflowNote env.nowHMS ("session_" ++ toString env.unixSec)) ∈
      (runAgentLoop env p).effects ∧
    (∀ s, (runAgentLoop env p).result ≠ Except.error ("LLM call failed: " ++ s)) := by
  rw [runAgentLoop, hm, runIterations_overflow env m 0 ci ws "" 0 _ [] e hr hov]
  refine ⟨rfl, by simp, ?_, ?_, ?_, ?_⟩
  · simp [overflowEffects]
  · simp [overflowEffects]
  · simp [overflowEffects]
  · intro s hcontra
    have hs : overflowErrText = "LLM call failed: " ++ s := by
      simpa using hcontra
    have hd := congrArg (fun t => t.data.head?) hs
    have hL : ("LLM call failed: " ++ s).data.head? = some 'L' := by
      rw [String.data_append]; rfl
    have hc : overflowErrText.data.head? = some 'c' := rfl
    simp only [hc, hL] at hd
    exact absurd (Option.some.inj hd) (by decide)

/-- A provider script failing every call with an overflow-marked error. -/
def scriptOverflow : Nat → Except String Response :=
  fun _ => Except.error "maximum context length exceeded"

/-- Witness for C3 at a concrete overflow error. -/
theorem C3_overflow_recovery_witness :
    (runAgentLoop (mkEnv scriptOverflow 3) "go").result = Except.error overflowErrText ∧
    (runAgentLoop (mkEnv scriptOverflow 3) "go").effects =
      ([] : List Nat).map Effect.wait ++ overflowEffects (mkEnv scriptOverflow 3) ∧
    Effect.writeResumeTrigger ("session_" ++ toString (mkEnv scriptOverflow 3).unixSec)
        "context_overflow" ∈ (runAgentLoop (mkEnv scriptOverflow 3) "go").effects ∧
    Effect.writeResumePrompt (gapAnalysisPrompt (mkEnv scriptOverflow 3).memoryCtx) ∈
      (runAgentLoop (mkEnv scriptOverflow 3) "go").effects ∧
    Effect.appendToday (overflowNote (mkEnv scriptOverflow 3).nowHMS
        ("session_" ++ toString (mkEnv scriptOverflow 3).unixSec)) ∈
      (runAgentLoop (mkEnv scriptOverflow 3) "go").effects ∧
    (∀ s, (runAgentLoop (mkEnv scriptOverflow 3) "go").result ≠
      Except.error ("LLM call failed: " ++ s)) :=
  C3_overflow_recovery (mkEnv scriptOverflow 3) "go" "maximum context length exceeded" 1 [] 2
    rfl (by decide) (by decide)

/-- C4: the retry policy for rate-limited model-call failures.  First part:
two consecutive rate-limited failures followed by a success produce exactly
two interruptible backoff waits of 5*1 and 5*2 seconds — strictly increasing,
base times the (1-based) attempt number — then the run proceeds normally with
no error surfaced.  Second part: three consecutive rate-limited failures
exhaust the attempt cap of 3 and surface the last error. -/
theorem C4_rate_limit_retry :
    (∀ (env : LoopEnv) (p : String) (m : Nat) (e1 e2 c : String) (u : Usage),
      env.maxToolIterations = m + 1 →
      env.provider 0 = Except.error e1 →
      env.provider 1 = Except.error e2 →
      env.provider 2 = Except.ok ⟨c, [], u⟩ →
      isRateLimitError e1 = true → isRateLimitError e2 = true →
      (runAgentLoop env p).effects = [Effect.wait (5 * 1), Effect.wait (5 * 2)] ∧
      5 * 1 < 5 * 2 ∧
      (runAgentLoop env p).result = Except.ok () ∧
      (runAgentLoop env p).calls = 3) ∧
    (∀ (env : LoopEnv) (p : String) (m : Nat) (e1 e2 e3 : String),
      env.maxToolIterations = m + 1 →
      env.provider 0 = Except.error e1 →
      env.provider 1 = Except.error e2 →
      env.provider 2 = Except.error e3 →
      isRateLimitError e1 = true → isRateLimitError e2 = true → isRateLimitError e3 = true →
      detectContextOverflow e3 = false →
      (runAgentLoop env p).result = Except.error ("LLM call failed: " ++ e3) ∧
      (runAgentLoop env p).effects =
        [Effect.wait (5 * 1), Effect.wait (5 * 2), Effect.wait (5 * 3)] ∧
      (runAgentLoop env p).calls = 3) := by
  constructor
  · intro env p m e1 e2 c u hm h0 h1 h2 hrl1 hrl2
    have hA : retryCall env.provider 1 2 2 = (3, [], Except.ok ⟨c, [], u⟩) :=
      retryCall_succ_ok env.provider 0 2 2 _ h2
    have hB := retryCall_succ_err_rl env.provider 1 1 1 e2 h1 hrl2 one_ne_zero
    rw [hA] at hB
    simp only at hB
    have hC := retryCall_succ_err_rl env.provider 2 0 0 e1 h0 hrl1 two_ne_zero
    rw [hB] at hC
    simp only at hC
    rw [runAgentLoop, hm, runIterations_terminal env m 0 3 [5 * 1, 5 * 2] "" 0 _ [] c u hC]
    refine ⟨by simp, by omega, rfl, rfl⟩
  · intro env p m e1 e2 e3 hm h0 h1 h2 hrl1 hrl2 hrl3 hov
    have hA : retryCall env.provider 1 2 2 = (3, [5 * 3], Except.error e3) :=
      retryCall_one_err_rl env.provider 2 2 e3 h2 hrl3
    have hB := retryCall_succ_err_rl env.provider 1 1 1 e2 h1 hrl2 one_ne_zero
    rw [hA] at hB
    simp only at hB
    have hC := retryCall_succ_err_rl env.provider 2 0 0 e1 h0 hrl1 two_ne_zero
    rw [hB] at hC
    simp only at hC
    rw [runAgentLoop, hm,
      runIterations_generic_error env m 0 3 [5 * 1, 5 * 2, 5 * 3] "" 0 _ [] e3 hC hov]
    refine ⟨rfl, by simp, rfl⟩

/-- A provider script: two rate-limited failures, then a tool-free success. -/
def scriptRateLimit : Nat → Except String Response :=
  fun n => if n < 2 then Except.error "429 too many requests" else Except.ok ⟨"done", [], ⟨1, 2, 3⟩⟩

/-- A provider script failing every call with a rate-limited error. -/
def scriptRateLimitAll : Nat → Except String Response :=
  fun _ => Except.error "429 too many requests"

/-- Witness for C4: both the two-failures-then-success scenario and the
cap-exhaustion scenario at a concrete 429 error. -/
theorem C4_rate_limit_retry_witness :
    ((runAgentLoop (mkEnv scriptRateLimit 3) "go").effects =
        [Effect.wait (5 * 1), Effect.wait (5 * 2)] ∧
      5 * 1 < 5 * 2 ∧
      (runAgentLoop (mkEnv scriptRateLimit 3) "go").result = Except.ok () ∧
      (runAgentLoop (mkEnv scriptRateLimit 3) "go").calls = 3) ∧
    ((runAgentLoop (mkEnv scriptRateLimitAll 3) "go").result =
        Except.error ("LLM call failed: " ++ "429 too many requests") ∧
      (runAgentLoop (mkEnv scriptRateLimitAll 3) "go").effects =
        [Effect.wait (5 * 1), Effect.wait (5 * 2), Effect.wait (5 * 3)] ∧
      (runAgentLoop (mkEnv scriptRateLimitAll 3) "go").calls = 3) :=
  ⟨C4_rate_limit_retry.1 (mkEnv scriptRateLimit 3) "go" 2 "429 too many requests"
      "429 too many requests" "done" ⟨1, 2, 3⟩ rfl rfl rfl rfl (by decide) (by decide),
   C4_rate_limit_retry.2 (mkEnv scriptRateLimitAll 3) "go" 2 "429 too many requests"
      "429 too many requests" "429 too many requests" rfl rfl rfl rfl
      (by decide) (by decide) (by decide) (by decide)⟩

theorem listInfixB_iff (p : List Char) : ∀ l, listInfixB p l = true ↔ p <:+: l := by
  intro l
  induction l with
  | nil => simp [listInfixB, List.isEmpty_iff]
  | cons c t ih =>
      simp [listInfixB, List.isPrefixOf_iff_prefix, ih, List.infix_cons_iff]

theorem infixB_trans (p q : String) (s : String)
    (hpq : listInfixB p.toList q.toList = true) (hq : strContains s q = true) :
    strContains s p = true := by
  rw [strContains, listInfixB_iff] at hq ⊢
  exact ((listInfixB_iff p.toList q.toList).mp hpq).trans hq

/-- C10: rate-limit classification takes precedence over overflow
classification.  Any error whose lowercased message contains
"too many tokens" also contains the rate-limit marker "too many", so it is
classified rate-limited AND overflow-marked; against a provider that keeps
failing with it, the loop first exhausts the three-attempt backoff (waits
5, 10, 15 seconds) and only then runs the overflow recovery and returns the
distinguished overflow error. -/
theorem C10_rate_limit_precedes_overflow (e : String) (env : LoopEnv) (p : String) (m : Nat)
    (he : strContains (lowerStr e) "too many tokens" = true)
    (hm : env.maxToolIterations = m + 1)
    (hp : ∀ n, env.provider n = Except.error e) :
    isRateLimitError e = true ∧
    detectContextOverflow e = true ∧
    (runAgentLoop env p).calls = 3 ∧
    (runAgentLoop env p).effects =
      [Effect.wait (5 * 1), Effect.wait (5 * 2), Effect.wait (5 * 3)] ++ overflowEffects env ∧
    (runAgentLoop env p).result = Except.error overflowErrText := by
  have hrl : isRateLimitError e = true := by
    have h1 : strContains (lowerStr e) "too many" = true :=
      infixB_trans "too many" "too many tokens" (lowerStr e) (by decide) he
    simp [isRateLimitError, h1]
  have hov : detectContextOverflow e = true := by
    simp [detectContextOverflow, List.any_cons, List.any_nil, he]
  have hA : retryCall env.provider 1 2 2 = (3, [5 * 3], Except.error e) :=
    retryCall_one_err_rl env.provider 2 2 e (hp 2) hrl
  have hB := retryCall_succ_err_rl env.provider 1 1 1 e (hp 1) hrl one_ne_zero
  rw [hA] at hB
  simp only at hB
  have hC := retryCall_succ_err_rl env.provider 2 0 0 e (hp 0) hrl two_ne_zero
  rw [hB] at hC
  simp only at hC
  rw [runAgentLoop, hm,
    runIterations_overflow env m 0 3 [5 * 1, 5 * 2, 5 * 3] "" 0 _ [] e hC hov]
  exact ⟨hrl, hov, rfl, by simp, rfl⟩

/-- A provider script failing every call with an error carrying both the
"too many" rate-limit marker and the "too many tokens" overflow marker. -/
def scriptTooManyTokens : Nat → Except String Response :=
  fun _ => Except.error "Request contains too many tokens for this model"

/-- Witness for C10 at a concrete doubly-classified error. -/
theorem C10_rate_limit_precedes_overflow_witness :
    isRateLimitError "Request contains too many tokens for this model" = true ∧
    detectContextOverflow "Request contains too many tokens for this model" = true ∧
    (runAgentLoop (mkEnv scriptTooManyTokens 5) "go").calls = 3 ∧
    (runAgentLoop (mkEnv scriptTooManyTokens 5) "go").effects =
      [Effect.wait (5 * 1), Effect.wait (5 * 2), Effect.wait (5 * 3)] ++
        overflowEffects (mkEnv scriptTooManyTokens 5) ∧
    (runAgentLoop (mkEnv scriptTooManyTokens 5) "go").result =
      Except.error overflowErrText :=
  C10_rate_limit_precedes_overflow "Request contains too many tokens for this model"
    (mkEnv scriptTooManyTokens 5) "go" 4 (by decide) rfl (fun _ => rfl)

/-! ### The loop breaker -/

/-- The synthetic corrective user message of runAgentLoop, as a Message. -/
def breakerUserMsg : Message :=
  { role := "user", content := breakerText, toolCalls := [], toolCallId := "" }

/-- How many corrective loop-breaker messages a transcript carries. -/
def breakerCount (msgs : List Message) : Nat :=
  msgs.countP (fun msg => msg = breakerUserMsg)

/-- The loop-breaker signature of a response: the signature of its first tool
call (computed on the name as issued by the model). -/
def firstSig (r : Response) : String :=
  sigOf (r.toolCalls.headD ⟨"", "", "", none, none⟩)

/-- The number of corrective messages the loop-breaker automaton emits along a
sequence of per-iteration first-call signatures, starting from a given
(lastToolSignature, repeatCount) state. -/
def fireCount (txt : String) : String → Nat → List String → Nat
  | _, _, [] => 0
  | lastSig, rc, s :: rest =>
      (breakerStep txt lastSig rc s).1.length +
        fireCount txt (breakerStep txt lastSig rc s).2.1 (breakerStep txt lastSig rc s).2.2 rest

theorem breakerCount_append (a b : List Message) :
    breakerCount (a ++ b) = breakerCount a + breakerCount b :=
  List.countP_append _ a b

theorem toolResultMsg_ne_breaker (r : Registry) (tc : ToolCall) :
    toolResultMsg r tc ≠ breakerUserMsg := by
  cases h : r.Execute tc.name tc.arguments <;> simp [toolResultMsg, h, breakerUserMsg]

theorem breakerCount_toolResults (r : Registry) (tcs : List ToolCall) :
    breakerCount (toolResultMsgs r tcs) = 0 := by
  induction tcs with
  | nil => rfl
  | cons tc rest ih =>
      simp [toolResultMsgs, breakerCount, List.countP_cons, toolResultMsg_ne_breaker r tc]
      simpa [toolResultMsgs, breakerCount] using ih

theorem breakerCount_assistant (r : Registry) (resp : Response) :
    breakerCount [assistantToolMsg r resp] = 0 := by
  simp [breakerCount, List.countP_cons, assistantToolMsg, breakerUserMsg]

theorem breakerCount_breakerStep (lastSig cur : String) (rc : Nat) :
    breakerCount (breakerStep breakerText lastSig rc cur).1 =
      (breakerStep breakerText lastSig rc cur).1.length := by
  unfold breakerStep
  split <;> [skip; simp [breakerCount]]
  split <;> simp [breakerCount, List.countP_cons, breakerUserMsg]

theorem breakerCount_init (env : LoopEnv) (p : String) (hp : p ≠ breakerText) :
    breakerCount (buildInitialMessages env p) = 0 := by
  simp [breakerCount, buildInitialMessages, List.countP_cons, breakerUserMsg, hp]

/-- The transcript-level behaviour of the loop breaker over a run: for a
provider script of tool-call responses (from call index ci) followed by a
tool-free terminal response, the run succeeds and the number of corrective
messages added to the transcript is the automaton count of the per-iteration
first-call signature sequence. -/
theorem breaker_count_run (env : LoopEnv) (c : String) (u : Usage) :
    ∀ (resps : List Response) (extra ci : Nat) (sig : String) (rc : Nat)
      (msgs : List Message) (effs : List Effect),
      (∀ i r, resps.get? i = some r → env.provider (ci + i) = Except.ok r) →
      (∀ r ∈ resps, r.toolCalls ≠ []) →
      env.provider (ci + resps.length) = Except.ok ⟨c, [], u⟩ →
      breakerCount ((runIterations env (extra + resps.length + 1) ci sig rc msgs effs).messages) =
        breakerCount msgs + fireCount breakerText sig rc (resps.map firstSig) ∧
      (runIterations env (extra + resps.length + 1) ci sig rc msgs effs).result =
        Except.ok () := by
  intro resps
  induction resps with
  | nil =>
      intro extra ci sig rc msgs effs hscript hne hterm
      have hrc : retryCall env.provider 3 ci 0 = (ci + 1, [], Except.ok ⟨c, [], u⟩) :=
        retryCall_succ_ok env.provider 2 ci 0 _ (by simpa using hterm)
      rw [runIterations_terminal env (extra + [].length) ci (ci + 1) [] sig rc msgs effs c u hrc]
      simp [fireCount]
  | cons r rest ih =>
      intro extra ci sig rc msgs effs hscript hne hterm
      have h0 : env.provider ci = Except.ok r := by simpa using hscript 0 r rfl
      obtain ⟨tc0, tl, htc⟩ : ∃ tc0 tl, r.toolCalls = tc0 :: tl := by
        cases hcase : r.toolCalls with
        | nil => exact absurd hcase (hne r (List.mem_cons_self r rest))
        | cons a b => exact ⟨a, b, rfl⟩
      have hrc : retryCall env.provider 3 ci 0 = (ci + 1, [], Except.ok r) :=
        retryCall_succ_ok env.provider 2 ci 0 _ h0
      simp only [List.length_cons]
      rw [runIterations_tools env (extra + (rest.length + 1)) ci (ci + 1) [] sig rc msgs effs
        r tc0 tl hrc htc]
      have hconv : extra + (rest.length + 1) = extra + rest.length + 1 := rfl
      rw [hconv]
      have hscript' : ∀ i r', rest.get? i = some r' → env.provider (ci + 1 + i) = Except.ok r' := by
        intro i r' h
        have := hscript (i + 1) r' (by simpa using h)
        rwa [show ci + (i + 1) = ci + 1 + i by omega] at this
      have hne' : ∀ r' ∈ rest, r'.toolCalls ≠ [] := fun r' hmem => hne r' (List.mem_cons_of_mem r hmem)
      have hterm' : env.provider (ci + 1 + rest.length) = Except.ok ⟨c, [], u⟩ := by
        have := hterm
        rwa [show ci + (r :: rest).length = ci + 1 + rest.length by simp; omega] at this
      obtain ⟨ihc, ihr⟩ := ih extra (ci + 1)
        (breakerStep breakerText sig rc (sigOf tc0)).2.1
        (breakerStep breakerText sig rc (sigOf tc0)).2.2
        (((msgs ++ [assistantToolMsg env.registry r]) ++ toolResultMsgs env.registry r.toolCalls) ++
          (breakerStep breakerText sig rc (sigOf tc0)).1)
        ((effs ++ List.map Effect.wait []) ++ boundaryEffects env r.content)
        hscript' hne' hterm'
      refine ⟨?_, ihr⟩
      rw [ihc]
      rw [breakerCount_append, breakerCount_append, breakerCount_append,
        breakerCount_assistant, htc, breakerCount_toolResults, breakerCount_breakerStep]
      have hfs : firstSig r = sigOf tc0 := by simp [firstSig, htc]
      simp only [List.map_cons, fireCount, hfs]
      omega

theorem fireCount_sss (s : String) (hs : s ≠ "") :
    fireCount breakerText "" 0 [s, s, s] = 1 := by
  simp [fireCount, breakerStep_new breakerText "" s 0 hs,
    breakerStep_repeat breakerText s 0 (by omega),
    breakerStep_fire breakerText s 1 (by omega)]

theorem fireCount_sssss (s : String) (hs : s ≠ "") :
    fireCount breakerText "" 0 [s, s, s, s, s] = 1 := by
  simp [fireCount, breakerStep_new breakerText "" s 0 hs,
    breakerStep_repeat breakerText s 0 (by omega),
    breakerStep_fire breakerText s 1 (by omega)]

theorem fireCount_ssssss (s : String) (hs : s ≠ "") :
    fireCount breakerText "" 0 [s, s, s, s, s, s] = 2 := by
  simp [fireCount, breakerStep_new breakerText "" s 0 hs,
    breakerStep_repeat breakerText s 0 (by omega),
    breakerStep_fire breakerText s 1 (by omega)]

theorem fireCount_reset (s d : String) (hs : s ≠ "") (hds : d ≠ s) (hsd : s ≠ d) :
    fireCount breakerText "" 0 [s, s, d, s, s] = 0 := by
  simp [fireCount, breakerStep_new breakerText "" s 0 hs,
    breakerStep_repeat breakerText s 0 (by omega),
    breakerStep_new breakerText s d 1 hds,
    breakerStep_new breakerText d s 0 hsd,
    breakerStep_repeat breakerText d 0 (by omega)]

/-- C2 amended: the repeat signature of an iteration is the serialized
arguments plus the name of the first tool call exactly as the model issued it
(NOT the canonical alias-resolved name).  With that signature: three
consecutive iterations with an identical first call inject exactly one
corrective user message, after which signature and counter reset, so two
further identical iterations cannot re-trigger (still one message after five)
while three further identical ones do (two messages after six); an iteration
with a different first call resets the counter (no message across
s, s, d, s, s).  The run still ends in success. -/
theorem C2_loop_breaker_amended (env : LoopEnv) (p : String) (m : Nat) (resps : List Response)
    (c : String) (u : Usage) (s : String)
    (hm : env.maxToolIterations = m + resps.length + 1)
    (hscript : ∀ i r, resps.get? i = some r → env.provider i = Except.ok r)
    (hne : ∀ r ∈ resps, r.toolCalls ≠ [])
    (hterm : env.provider resps.length = Except.ok ⟨c, [], u⟩)
    (hp : p ≠ breakerText) :
    (resps.map firstSig = [s, s, s] →
       breakerCount (runAgentLoop env p).messages = 1) ∧
    (resps.map firstSig = [s, s, s, s, s] →
       breakerCount (runAgentLoop env p).messages = 1) ∧
    (resps.map firstSig = [s, s, s, s, s, s] →
       breakerCount (runAgentLoop env p).messages = 2) ∧
    (∀ d, d ≠ s → s ≠ d → resps.map firstSig = [s, s, d, s, s] →
       breakerCount (runAgentLoop env p).messages = 0) ∧
    (runAgentLoop env p).result = Except.ok () := by
  have hscript' : ∀ i r, resps.get? i = some r → env.provider (0 + i) = Except.ok r := by
    intro i r h; rw [Nat.zero_add]; exact hscript i r h
  have hterm' : env.provider (0 + resps.length) = Except.ok ⟨c, [], u⟩ := by
    rw [Nat.zero_add]; exact hterm
  obtain ⟨hcount, hres⟩ := breaker_count_run env c u resps m 0 "" 0
    (buildInitialMessages env p) [] hscript' hne hterm'
  have hrun : runAgentLoop env p =
      runIterations env (m + resps.length + 1) 0 "" 0 (buildInitialMessages env p) [] := by
    rw [runAgentLoop, hm]
  have hsne : ∀ sigs : List String, resps.map firstSig = sigs → s ∈ sigs → s ≠ "" := by
    intro sigs hmap hmem
    rw [← hmap] at hmem
    obtain ⟨r0, _, hr0⟩ := List.mem_map.mp hmem
    rw [← hr0]
    exact sigOf_ne_empty _
  refine ⟨?_, ?_, ?_, ?_, by rw [hrun]; exact hres⟩
  · intro hmap
    rw [hrun, hcount, breakerCount_init env p hp, hmap,
      fireCount_sss s (hsne _ hmap (by simp))]
  · intro hmap
    rw [hrun, hcount, breakerCount_init env p hp, hmap,
      fireCount_sssss s (hsne _ hmap (by simp))]
  · intro hmap
    rw [hrun, hcount, breakerCount_init env p hp, hmap,
      fireCount_ssssss s (hsne _ hmap (by simp))]
  · intro d hds hsd hmap
    rw [hrun, hcount, breakerCount_init env p hp, hmap,
      fireCount_reset s d (hsne _ hmap (by simp)) hds hsd]

/-- A response issuing the single "Bash" tool call. -/
def respBash : Response := ⟨"", [tcBash], ⟨1, 1, 2⟩⟩

/-- A script of three identical "Bash" responses, then a tool-free answer. -/
def scriptTriple : Nat → Except String Response :=
  fun n => if n < 3 then Except.ok respBash else Except.ok ⟨"done", [], ⟨1, 1, 2⟩⟩

/-- The loop environment for the C2 witness. -/
def envTriple : LoopEnv := { mkEnv scriptTriple 10 with registry := newLoopRegistry execStubTable }

/-- Witness for the amended C2: three identical first calls inject exactly one
corrective message and the run succeeds. -/
theorem C2_loop_breaker_amended_witness :
    breakerCount (runAgentLoop envTriple "go").messages = 1 ∧
    (runAgentLoop envTriple "go").result = Except.ok () := by
  have hscript : ∀ i r, [respBash, respBash, respBash].get? i = some r →
      envTriple.provider i = Except.ok r := by
    intro i r h
    match i with
    | 0 => simp at h; rw [← h]; rfl
    | 1 => simp at h; rw [← h]; rfl
    | 2 => simp at h; rw [← h]; rfl
    | (n + 3) => simp at h
  have h := C2_loop_breaker_amended envTriple "go" 6 [respBash, respBash, respBash]
    "done" ⟨1, 1, 2⟩ (firstSig respBash) rfl hscript
    (by intro r hr; simp at hr; rw [hr]; decide) rfl (by decide)
  exact ⟨h.1 (by decide), h.2.2.2.2⟩

/-- A response issuing the same call under the canonical name "exec". -/
def respExec : Response := ⟨"", [⟨"call2", "function", "exec", none, some [("command", "ls")]⟩], ⟨1, 1, 2⟩⟩

/-- A second "Bash" response (fresh call id). -/
def respBash2 : Response := ⟨"", [⟨"call3", "function", "Bash", none, some [("command", "ls")]⟩], ⟨1, 1, 2⟩⟩

/-- Alternating alias/canonical first calls, then a tool-free answer. -/
def scriptAlternating : Nat → Except String Response :=
  fun n =>
    if n = 0 then Except.ok respBash
    else if n = 1 then Except.ok respExec
    else if n = 2 then Except.ok respBash2
    else Except.ok ⟨"done", [], ⟨1, 1, 2⟩⟩

/-- The loop environment for the C2 counterexample. -/
def envAlternating : LoopEnv :=
  { mkEnv scriptAlternating 10 with registry := newLoopRegistry execStubTable }

/-- C2 counterexample: three consecutive iterations whose first tool calls
have the SAME canonical (alias-resolved) name "exec" and identical arguments —
the claim's repeat signature — but issued alternately as "Bash", "exec",
"Bash".  The claim predicts one injected corrective message; the code compares
the un-resolved names, so the signatures differ and no message is injected. -/
theorem C2_counterexample :
    (envAlternating.registry.ResolveName "Bash" = "exec" ∧
     envAlternating.registry.ResolveName "exec" = "exec" ∧
     marshalArgs (some [("command", "ls")]) = marshalArgs (some [("command", "ls")])) ∧
    breakerCount (runAgentLoop envAlternating "go").messages = 0 ∧
    ¬ breakerCount (runAgentLoop envAlternating "go").messages = 1 := by
  decide

/-! ### Well-formed streaming inputs: N tool_use block triples interleaved
with text deltas.  An interleaving is generated by a schedule of moves: a text
move emits one text content_block_delta, a tool move emits the next pending
event (start, a partial-JSON delta, or stop) of the k-th tool block. -/

/-- One tool_use block of a synthetic stream: its index, id, name, and the
partial_json fragments delivered for it, in arrival order. -/
structure ToolBlockSpec where
  index : Nat
  id : String
  name : String
  frags : List String
deriving DecidableEq, Repr

/-- One step of an interleaving schedule. -/
inductive Move where
  | text (index : Nat) (s : String)
  | tool (k : Nat)
deriving DecidableEq, Repr

/-- Concatenation of a fragment list, in order. -/
def concatStrs : List String → String
  | [] => ""
  | s :: t => s ++ concatStrs t

/-- The pending partial-JSON delta events of a block, from fragment j on. -/
def toolDeltaEvents (s : ToolBlockSpec) (j : Nat) : List SSEEvent :=
  (s.frags.drop j).map (fun f => SSEEvent.contentBlockDelta s.index "input_json_delta" "" f)

/-- The pending events of a block whose start has been consumed and whose
first j fragments have been consumed. -/
def toolRem (s : ToolBlockSpec) (j : Nat) : List SSEEvent :=
  toolDeltaEvents s j ++ [SSEEvent.contentBlockStop s.index]

/-- The full event triple of a tool_use block:
content_block_start, its deltas, content_block_stop. -/
def toolBlockEvents (s : ToolBlockSpec) : List SSEEvent :=
  SSEEvent.contentBlockStart s.index "tool_use" s.id s.name :: toolRem s 0

/-- Render a schedule against the pending-event lists of the tool blocks:
returns the emitted event sequence and the final pending lists (all empty for
a complete interleaving).  A tool move for an exhausted or out-of-range block
emits nothing. -/
def renderB : List Move → List (List SSEEvent) → List SSEEvent × List (List SSEEvent)
  | [], rem => ([], rem)
  | Move.text i s :: ms, rem =>
      ((SSEEvent.contentBlockDelta i "text_delta" s "") :: (renderB ms rem).1, (renderB ms rem).2)
  | Move.tool k :: ms, rem =>
      match rem.get? k with
      | some (e :: tl) => (e :: (renderB ms (rem.set k tl)).1, (renderB ms (rem.set k tl)).2)
      | some [] => renderB ms rem
      | none => renderB ms rem

/-- The text payload of a text content_block_delta, none otherwise. -/
def textOf : SSEEvent → Option String
  | SSEEvent.contentBlockDelta _ dt txt _ => if dt = "text_delta" then some txt else none
  | _ => none

/-- The concatenation of all text deltas of an event sequence, in order. -/
def textConcat (es : List SSEEvent) : String := concatStrs (es.filterMap textOf)

/-- The index of a content_block_stop event, none otherwise. -/
def stopOf : SSEEvent → Option Nat
  | SSEEvent.contentBlockStop i => some i
  | _ => none

/-- The indices of the content_block_stop events of a sequence, in arrival
order. -/
def stopsOf (es : List SSEEvent) : List Nat := es.filterMap stopOf

/-- The finished ToolCall of the block at a given index: its id and name,
arguments the jp-parse of the concatenated fragments, raw arguments the
concatenation itself. -/
def specCall (jp : String → Option Args) (specs : List ToolBlockSpec) (i : Nat) : Option ToolCall :=
  (specs.find? (fun s => s.index == i)).map (fun s =>
    { id := s.id, type := "function", name := s.name,
      function := some ⟨s.name, concatStrs s.frags⟩, arguments := jp (concatStrs s.frags) })

/-- The decoder-state invariant for one block: either unstarted (no
accumulator), or started with its first j fragments accumulated, or finished
(the accumulator holds the full concatenation; content_block_stop does not
remove it). -/
def ProgressOf (s : ToolBlockSpec) (r : List SSEEvent) (st : SSEState) : Prop :=
  (r = toolBlockEvents s ∧ assocGet st.toolAccums s.index = none) ∨
  (∃ j, j ≤ s.frags.length ∧ r = toolRem s j ∧
     assocGet st.toolAccums s.index = some ⟨s.id, s.name, concatStrs (s.frags.take j)⟩) ∨
  (r = [] ∧ assocGet st.toolAccums s.index = some ⟨s.id, s.name, concatStrs s.frags⟩)

/-- The full decoder-state invariant: one pending list per block, each in its
ProgressOf relation with the accumulator map. -/
def Inv (specs : List ToolBlockSpec) (rem : List (List SSEEvent)) (st : SSEState) : Prop :=
  rem.length = specs.length ∧
  ∀ k s r, specs.get? k = some s → rem.get? k = some r → ProgressOf s r st

theorem assocGet_assocSet_self {α β : Type} [DecidableEq α] (l : List (α × β)) (k : α) (v : β) :
    assocGet (assocSet l k v) k = some v := by
  induction l with
  | nil => simp [assocSet, assocGet]
  | cons p t ih =>
      by_cases h : p.1 = k
      · simp [assocSet, assocGet, h]
      · simp [assocSet, assocGet, h, ih]

theorem assocGet_assocSet_ne {α β : Type} [DecidableEq α] (l : List (α × β)) (k k' : α) (v : β)
    (h : k' ≠ k) : assocGet (assocSet l k v) k' = assocGet l k' := by
  induction l with
  | nil => simp [assocSet, assocGet, Ne.symm h]
  | cons p t ih =>
      by_cases hp : p.1 = k
      · subst hp
        simp [assocSet, assocGet, Ne.symm h]
      · simp only [assocSet, if_neg hp]
        by_cases hp' : p.1 = k'
        · simp [assocGet, hp']
        · simp [assocGet, hp', ih]

theorem assocGet_assocUpdate_self {α β : Type} [DecidableEq α] (f : β → β) (l : List (α × β))
    (k : α) (v : β) (h : assocGet l k = some v) :
    assocGet (assocUpdate f l k) k = some (f v) := by
  induction l with
  | nil => simp [assocGet] at h
  | cons p t ih =>
      by_cases hp : p.1 = k
      · simp [assocGet, hp] at h
        simp [assocUpdate, assocGet, hp, h]
      · simp only [assocGet, if_neg hp] at h
        simp [assocUpdate, assocGet, hp, ih h]

theorem assocGet_assocUpdate_ne {α β : Type} [DecidableEq α] (f : β → β) (l : List (α × β))
    (k k' : α) (h : k' ≠ k) : assocGet (assocUpdate f l k) k' = assocGet l k' := by
  induction l with
  | nil => simp [assocUpdate, assocGet]
  | cons p t ih =>
      by_cases hp : p.1 = k
      · subst hp
        simp [assocUpdate, assocGet, Ne.symm h]
      · by_cases hp' : p.1 = k'
        · simp [assocUpdate, assocGet, hp, hp', h]
        · simp [assocUpdate, assocGet, hp, hp', ih]

theorem ProgressOf_congr (s : ToolBlockSpec) (r : List SSEEvent) (st st' : SSEState)
    (h : assocGet st'.toolAccums s.index = assocGet st.toolAccums s.index) :
    ProgressOf s r st → ProgressOf s r st' := by
  intro hp
  unfold ProgressOf at hp ⊢
  rw [h]
  exact hp

theorem concatStrs_take_succ (l : List String) (j : Nat) (h : j < l.length) :
    concatStrs (l.take (j + 1)) = concatStrs (l.take j) ++ l[j] := by
  induction l generalizing j with
  | nil => simp at h
  | cons a t ih =>
      cases j with
      | zero => simp [concatStrs]
      | succ j =>
          simp only [List.take_succ_cons, concatStrs, List.getElem_cons_succ]
          rw [ih j (by simpa using h), String.append_assoc]

theorem distinct_index_of_get (specs : List ToolBlockSpec)
    (hdis : specs.Pairwise (fun a b => a.index ≠ b.index)) (k k' : Nat)
    (s s' : ToolBlockSpec) (hk : specs.get? k = some s) (hk' : specs.get? k' = some s')
    (hne : k ≠ k') : s.index ≠ s'.index := by
  rw [List.pairwise_iff_get] at hdis
  have hkl : k < specs.length := by
    by_contra hcon
    rw [List.get?_eq_none.mpr (by omega)] at hk
    cases hk
  have hkl' : k' < specs.length := by
    by_contra hcon
    rw [List.get?_eq_none.mpr (by omega)] at hk'
    cases hk'
  have hs : specs.get ⟨k, hkl⟩ = s := by
    have := List.get?_eq_get hkl
    rw [this] at hk
    exact Option.some.inj hk
  have hs' : specs.get ⟨k', hkl'⟩ = s' := by
    have := List.get?_eq_get hkl'
    rw [this] at hk'
    exact Option.some.inj hk'
  rcases Nat.lt_or_ge k k' with hlt | hge
  · have := hdis ⟨k, hkl⟩ ⟨k', hkl'⟩ hlt
    rwa [hs, hs'] at this
  · have hlt' : k' < k := by omega
    have := hdis ⟨k', hkl'⟩ ⟨k, hkl⟩ hlt'
    rw [hs, hs'] at this
    exact this.symm

theorem find?_eq_of_get (specs : List ToolBlockSpec)
    (hdis : specs.Pairwise (fun a b => a.index ≠ b.index)) (k : Nat) (s : ToolBlockSpec)
    (hk : specs.get? k = some s) :
    specs.find? (fun s' => s'.index == s.index) = some s := by
  induction specs generalizing k with
  | nil => cases hk
  | cons a t ih =>
      cases k with
      | zero =>
          have has : a = s := by
            have h0 : (a :: t).get? 0 = some a := rfl
            rw [h0] at hk
            exact Option.some.inj hk
          subst has
          exact List.find?_cons_of_pos _ (by simp)
      | succ k =>
          simp only [List.get?_cons_succ] at hk
          have hmem : s ∈ t := List.get?_mem hk
          have hane : a.index ≠ s.index := (List.pairwise_cons.mp hdis).1 s hmem
          rw [List.find?_cons_of_neg _ (by simp [hane])]
          exact ih (List.pairwise_cons.mp hdis).2 k hk

/-- The decoder against any schedule-rendered event body followed by a
message_stop: it succeeds; the Response text grows by the concatenation of the
rendered text deltas in arrival order; the Response toolCalls grow by one
finished call per rendered content_block_stop, in stop-arrival order, each
carrying the jp-parse of that block's concatenated fragments; usage is
untouched. -/
theorem processSSE_renderB (jp : String → Option Args) (specs : List ToolBlockSpec)
    (hdis : specs.Pairwise (fun a b => a.index ≠ b.index)) :
    ∀ (moves : List Move) (rem : List (List SSEEvent)) (st : SSEState),
      Inv specs rem st →
      (processSSE jp ((renderB moves rem).1 ++ [SSEEvent.messageStop]) st).2 =
        Except.ok { content := st.result.content ++ textConcat (renderB moves rem).1,
                    toolCalls := st.result.toolCalls ++
                      (stopsOf (renderB moves rem).1).filterMap (specCall jp specs),
                    usage := st.result.usage } := by
  intro moves
  induction moves with
  | nil =>
      intro rem st hinv
      simp only [renderB, List.nil_append]
      rw [processSSE_cons_ok jp SSEEvent.messageStop [] st rfl]
      simp only [processSSE, sseStepOk, textConcat, List.filterMap_nil, concatStrs, stopsOf,
        List.append_nil]
      have hce : st.result.content ++ "" = st.result.content := by simp
      rw [hce]
  | cons mv ms ih =>
      intro rem st hinv
      obtain ⟨hlen, hprog⟩ := hinv
      cases mv with
      | text i s =>
          simp only [renderB]
          rw [List.cons_append,
            processSSE_cons_ok jp (SSEEvent.contentBlockDelta i "text_delta" s "") _ st rfl]
          have hstep : sseStepOk jp st (SSEEvent.contentBlockDelta i "text_delta" s "") =
              { st with result := { st.result with content := st.result.content ++ s },
                        events := st.events ++ [{ type := "text", text := s }] } := by
            simp [sseStepOk]
          rw [hstep]
          have hinv' : Inv specs rem
              { st with result := { st.result with content := st.result.content ++ s },
                        events := st.events ++ [{ type := "text", text := s }] } :=
            ⟨hlen, fun k sp r hk hr => ProgressOf_congr sp r st _ rfl (hprog k sp r hk hr)⟩
          rw [ih rem _ hinv']
          simp [textConcat, textOf, stopsOf, stopOf, List.filterMap_cons, concatStrs,
            String.append_assoc]
      | tool k =>
          cases hk : rem.get? k with
          | none =>
              simp only [renderB, hk]
              exact ih rem st ⟨hlen, hprog⟩
          | some r0 =>
              cases r0 with
              | nil =>
                  simp only [renderB, hk]
                  exact ih rem st ⟨hlen, hprog⟩
              | cons e tl =>
                  simp only [renderB, hk]
                  have hkl : k < rem.length := by
                    by_contra hcon
                    rw [List.get?_eq_none.mpr (by omega)] at hk
                    cases hk
                  have hks : k < specs.length := hlen ▸ hkl
                  obtain ⟨sp, hsp⟩ : ∃ sp, specs.get? k = some sp := ⟨_, List.get?_eq_get hks⟩
                  have hpk := hprog k sp (e :: tl) hsp hk
                  rcases hpk with ⟨hr, hacc⟩ | ⟨j, hj, hr, hacc⟩ | ⟨hr, _⟩
                  · -- the block's content_block_start
                    rw [toolBlockEvents] at hr
                    injection hr with he htl
                    subst he
                    subst htl
                    rw [List.cons_append,
                      processSSE_cons_ok jp
                        (SSEEvent.contentBlockStart sp.index "tool_use" sp.id sp.name) _ st rfl]
                    have hstep : sseStepOk jp st
                        (SSEEvent.contentBlockStart sp.index "tool_use" sp.id sp.name) =
                        { st with
                            toolAccums := assocSet st.toolAccums sp.index ⟨sp.id, sp.name, ""⟩,
                            events := st.events ++
                              [{ type := "tool_start", toolId := sp.id, name := sp.name }] } := by
                      simp [sseStepOk]
                    rw [hstep]
                    have hinv' : Inv specs (rem.set k (toolRem sp 0))
                        { st with
                            toolAccums := assocSet st.toolAccums sp.index ⟨sp.id, sp.name, ""⟩,
                            events := st.events ++
                              [{ type := "tool_start", toolId := sp.id, name := sp.name }] } := by
                      refine ⟨by simp [hlen], fun k' sp' r' hk' hr' => ?_⟩
                      by_cases hkk : k' = k
                      · subst hkk
                        have hsp' : sp = sp' := by
                          rw [hsp] at hk'
                          exact Option.some.inj hk'
                        subst hsp'
                        have hr0 : r' = toolRem sp 0 := by
                          rw [List.get?_set_eq_of_lt _ hkl] at hr'
                          exact (Option.some.inj hr').symm
                        subst hr0
                        refine Or.inr (Or.inl ⟨0, Nat.zero_le _, rfl, ?_⟩)
                        simp only [assocGet_assocSet_self]
                        rfl
                      · rw [List.get?_set_ne _ _ (fun hkc => hkk hkc.symm)] at hr'
                        have hne : sp'.index ≠ sp.index :=
                          distinct_index_of_get specs hdis k' k sp' sp hk' hsp hkk
                        exact ProgressOf_congr sp' r' st _
                          (assocGet_assocSet_ne st.toolAccums sp.index sp'.index _ hne)
                          (hprog k' sp' r' hk' hr')
                    rw [ih _ _ hinv']
                    simp [textConcat, textOf, stopsOf, stopOf, List.filterMap_cons]
                  · -- the block is started: next event is a delta or its stop
                    by_cases hjlen : j < sp.frags.length
                    · -- partial-JSON delta for fragment j
                      rw [toolRem, toolDeltaEvents, List.drop_eq_getElem_cons hjlen,
                        List.map_cons] at hr
                      injection hr with he htl
                      subst he
                      subst htl
                      simp only [List.append_eq]
                      rw [List.cons_append,
                        processSSE_cons_ok jp
                          (SSEEvent.contentBlockDelta sp.index "input_json_delta" "" sp.frags[j])
                          _ st rfl]
                      have hstep : sseStepOk jp st
                          (SSEEvent.contentBlockDelta sp.index "input_json_delta" ""
                            sp.frags[j]) =
                          { st with
                              toolAccums := assocUpdate
                                (fun a => { a with inputJSON := a.inputJSON ++ sp.frags[j] })
                                st.toolAccums sp.index,
                              events := st.events ++
                                [{ type := "tool_delta", input := sp.frags[j] }] } := by
                        simp [sseStepOk]
                      rw [hstep]
                      have hinv' : Inv specs
                          (rem.set k ((sp.frags.drop (j + 1)).map
                              (fun f => SSEEvent.contentBlockDelta sp.index "input_json_delta" "" f) ++
                            [SSEEvent.contentBlockStop sp.index]))
                          { st with
                              toolAccums := assocUpdate
                                (fun a => { a with inputJSON := a.inputJSON ++ sp.frags[j] })
                                st.toolAccums sp.index,
                              events := st.events ++
                                [{ type := "tool_delta", input := sp.frags[j] }] } := by
                        refine ⟨by simp [hlen], fun k' sp' r' hk' hr' => ?_⟩
                        by_cases hkk : k' = k
                        · subst hkk
                          have hsp' : sp = sp' := by
                            rw [hsp] at hk'
                            exact Option.some.inj hk'
                          subst hsp'
                          have hr0 : r' = toolRem sp (j + 1) := by
                            rw [List.get?_set_eq_of_lt _ hkl] at hr'
                            exact (Option.some.inj hr').symm
                          subst hr0
                          refine Or.inr (Or.inl ⟨j + 1, by omega, rfl, ?_⟩)
                          rw [assocGet_assocUpdate_self _ _ _ _ hacc]
                          rw [concatStrs_take_succ sp.frags j hjlen]
                        · rw [List.get?_set_ne _ _ (fun hkc => hkk hkc.symm)] at hr'
                          have hne : sp'.index ≠ sp.index :=
                            distinct_index_of_get specs hdis k' k sp' sp hk' hsp hkk
                          exact ProgressOf_congr sp' r' st _
                            (assocGet_assocUpdate_ne _ st.toolAccums sp.index sp'.index hne)
                            (hprog k' sp' r' hk' hr')
                      rw [ih _ _ hinv']
                      simp [textConcat, textOf, stopsOf, stopOf, List.filterMap_cons]
                    · -- all fragments consumed: next event is the content_block_stop
                      have hjeq : j = sp.frags.length := by omega
                      subst hjeq
                      rw [toolRem, toolDeltaEvents, List.drop_length, List.map_nil,
                        List.nil_append] at hr
                      injection hr with he htl
                      subst he
                      subst htl
                      rw [List.take_length] at hacc
                      rw [List.cons_append,
                        processSSE_cons_ok jp (SSEEvent.contentBlockStop sp.index) _ st rfl]
                      have hstep : sseStepOk jp st (SSEEvent.contentBlockStop sp.index) =
                          { st with
                              result := { st.result with toolCalls := st.result.toolCalls ++
                                [{ id := sp.id, type := "function", name := sp.name,
                                   function := some ⟨sp.name, concatStrs sp.frags⟩,
                                   arguments := jp (concatStrs sp.frags) }] },
                              events := st.events ++
                                [{ type := "tool_end", toolId := sp.id, name := sp.name }] } := by
                        simp [sseStepOk, hacc]
                      rw [hstep]
                      have hinv' : Inv specs (rem.set k [])
                          { st with
                              result := { st.result with toolCalls := st.result.toolCalls ++
                                [{ id := sp.id, type := "function", name := sp.name,
                                   function := some ⟨sp.name, concatStrs sp.frags⟩,
                                   arguments := jp (concatStrs sp.frags) }] },
                              events := st.events ++
                                [{ type := "tool_end", toolId := sp.id, name := sp.name }] } := by
                        refine ⟨by simp [hlen], fun k' sp' r' hk' hr' => ?_⟩
                        by_cases hkk : k' = k
                        · subst hkk
                          have hsp' : sp = sp' := by
                            rw [hsp] at hk'
                            exact Option.some.inj hk'
                          subst hsp'
                          have hr0 : r' = [] := by
                            rw [List.get?_set_eq_of_lt _ hkl] at hr'
                            exact (Option.some.inj hr').symm
                          subst hr0
                          exact Or.inr (Or.inr ⟨rfl, hacc⟩)
                        · rw [List.get?_set_ne _ _ (fun hkc => hkk hkc.symm)] at hr'
                          exact ProgressOf_congr sp' r' st _ rfl (hprog k' sp' r' hk' hr')
                      rw [ih _ _ hinv']
                      have hfind : specCall jp specs sp.index =
                          some { id := sp.id, type := "function", name := sp.name,
                                 function := some ⟨sp.name, concatStrs sp.frags⟩,
                                 arguments := jp (concatStrs sp.frags) } := by
                        rw [specCall, find?_eq_of_get specs hdis k sp hsp]
                        rfl
                      simp [textConcat, textOf, stopsOf, stopOf, List.filterMap_cons, hfind]
                  · cases hr

theorem flatten_set_perm {γ : Type} :
    ∀ (l : List (List γ)) (k : Nat) (e : γ) (tl : List γ),
      l.get? k = some (e :: tl) → l.flatten.Perm (e :: (l.set k tl).flatten) := by
  intro l
  induction l with
  | nil => intro k e tl h; cases h
  | cons x xs ih =>
      intro k e tl h
      cases k with
      | zero =>
          have hx : x = e :: tl := by
            have h0 : (x :: xs).get? 0 = some x := rfl
            rw [h0] at h
            exact Option.some.inj h
          subst hx
          simp
      | succ k =>
          have hx : xs.get? k = some (e :: tl) := h
          have hperm := ih k e tl hx
          simp only [List.flatten_cons, List.set_cons_succ]
          exact (hperm.append_left x).trans List.perm_middle

theorem renderB_stops_perm :
    ∀ (moves : List Move) (rem : List (List SSEEvent)),
      ((stopsOf (renderB moves rem).1) ++ stopsOf (renderB moves rem).2.flatten).Perm
        (stopsOf rem.flatten) := by
  intro moves
  induction moves with
  | nil => intro rem; simp [renderB, stopsOf]
  | cons mv ms ih =>
      intro rem
      cases mv with
      | text i s =>
          simp only [renderB]
          have h1 : stopsOf (SSEEvent.contentBlockDelta i "text_delta" s "" ::
              (renderB ms rem).1) = stopsOf (renderB ms rem).1 := by
            simp [stopsOf, List.filterMap_cons, stopOf]
          rw [h1]
          exact ih rem
      | tool k =>
          cases hk : rem.get? k with
          | none => simp only [renderB, hk]; exact ih rem
          | some r0 =>
              cases r0 with
              | nil => simp only [renderB, hk]; exact ih rem
              | cons e tl =>
                  simp only [renderB, hk]
                  have hperm : (stopsOf rem.flatten).Perm
                      (stopsOf (e :: (rem.set k tl).flatten)) :=
                    (flatten_set_perm rem k e tl hk).filterMap stopOf
                  cases hse : stopOf e with
                  | none =>
                      have h1 : stopsOf (e :: (renderB ms (rem.set k tl)).1) =
                          stopsOf (renderB ms (rem.set k tl)).1 := by
                        simp [stopsOf, List.filterMap_cons, hse]
                      have h2 : stopsOf (e :: (rem.set k tl).flatten) =
                          stopsOf ((rem.set k tl).flatten) := by
                        simp [stopsOf, List.filterMap_cons, hse]
                      rw [h1]
                      rw [h2] at hperm
                      exact (ih (rem.set k tl)).trans hperm.symm
                  | some idx =>
                      have h1 : stopsOf (e :: (renderB ms (rem.set k tl)).1) =
                          idx :: stopsOf (renderB ms (rem.set k tl)).1 := by
                        simp [stopsOf, List.filterMap_cons, hse]
                      have h2 : stopsOf (e :: (rem.set k tl).flatten) =
                          idx :: stopsOf ((rem.set k tl).flatten) := by
                        simp [stopsOf, List.filterMap_cons, hse]
                      rw [h1]
                      rw [h2] at hperm
                      rw [List.cons_append]
                      exact ((ih (rem.set k tl)).cons idx).trans hperm.symm

theorem filterMap_const_none {γ δ : Type} :
    ∀ (l : List γ), List.filterMap (fun _ => (none : Option δ)) l = [] := by
  intro l
  induction l with
  | nil => rfl
  | cons a t ih => simp [List.filterMap_cons, ih]

theorem stopsOf_toolBlockEvents (s : ToolBlockSpec) :
    stopsOf (toolBlockEvents s) = [s.index] := by
  simp [toolBlockEvents, toolRem, toolDeltaEvents, stopsOf, stopOf, List.filterMap_cons,
    List.filterMap_append, List.filterMap_map, Function.comp, filterMap_const_none]

theorem stops_flatten_init (specs : List ToolBlockSpec) :
    stopsOf (specs.map toolBlockEvents).flatten = specs.map ToolBlockSpec.index := by
  induction specs with
  | nil => rfl
  | cons s t ih =>
      simp only [List.map_cons, List.flatten_cons, stopsOf, List.filterMap_append]
      have h1 : List.filterMap stopOf (toolBlockEvents s) = [s.index] := stopsOf_toolBlockEvents s
      rw [h1]
      simp only [stopsOf] at ih
      rw [ih]
      rfl

/-- C1 amended: for every well-formed SSE input — message_start, any
interleaving (here: any schedule rendering) of text content_block_delta events
and N tool_use start/delta/stop triples with distinct block indices, and
message_stop — the decoder succeeds with Content the concatenation of the text
deltas in arrival order and usage from message_start; the toolCalls are, in
the ARRIVAL ORDER OF THE content_block_stop EVENTS (not ascending block-index
order), the finished call of the block stopped there, each with arguments the
JSON parse of the concatenation of that block's partial_json fragments in
arrival order; when the schedule is complete, the stop sequence is a
permutation of the N block indices, so every block yields exactly one call. -/
theorem C1_streaming_reconstruction_amended (jp : String → Option Args) (n : Nat)
    (specs : List ToolBlockSpec) (moves : List Move)
    (hdis : specs.Pairwise (fun a b => a.index ≠ b.index)) :
    (parseSSEStream jp (SSEEvent.messageStart n ::
        ((renderB moves (specs.map toolBlockEvents)).1 ++ [SSEEvent.messageStop]))).2 =
      Except.ok { content := textConcat (renderB moves (specs.map toolBlockEvents)).1,
                  toolCalls := (stopsOf (renderB moves (specs.map toolBlockEvents)).1).filterMap
                    (specCall jp specs),
                  usage := ⟨n, 0, 0⟩ } ∧
    ((∀ l ∈ (renderB moves (specs.map toolBlockEvents)).2, l = []) →
      (stopsOf (renderB moves (specs.map toolBlockEvents)).1).Perm
        (specs.map ToolBlockSpec.index)) := by
  constructor
  · rw [parseSSEStream,
      processSSE_cons_ok jp (SSEEvent.messageStart n) _ initSSEState rfl]
    have hst1 : sseStepOk jp initSSEState (SSEEvent.messageStart n) =
        ⟨⟨"", [], ⟨n, 0, 0⟩⟩, [], []⟩ := by
      simp [sseStepOk, initSSEState]
    rw [hst1]
    have hinv : Inv specs (specs.map toolBlockEvents) ⟨⟨"", [], ⟨n, 0, 0⟩⟩, [], []⟩ := by
      refine ⟨by simp, fun k sp r hk hr => ?_⟩
      rw [List.get?_map, hk] at hr
      have hr' : r = toolBlockEvents sp := (Option.some.inj hr).symm
      subst hr'
      exact Or.inl ⟨rfl, rfl⟩
    rw [processSSE_renderB jp specs hdis moves _ _ hinv]
    have hce : ("" : String) ++ textConcat (renderB moves (specs.map toolBlockEvents)).1 =
        textConcat (renderB moves (specs.map toolBlockEvents)).1 := by
      simp
    rw [hce]
    rfl
  · intro hcomplete
    have h := renderB_stops_perm moves (specs.map toolBlockEvents)
    have hflat : ((renderB moves (specs.map toolBlockEvents)).2).flatten = [] :=
      List.flatten_eq_nil_iff.mpr hcomplete
    rw [hflat] at h
    simp only [stopsOf, List.filterMap_nil, List.append_nil] at h
    have hinit := stops_flatten_init specs
    simp only [stopsOf] at hinit
    rw [hinit] at h
    simpa [stopsOf] using h

/-- A concrete stand-in for json.Unmarshal: wrap the raw string. -/
def jpRaw : String → Option Args := fun s => some [("raw", s)]

/-- Two tool blocks (indices 0 and 1) for the C1 witness. -/
def specsW : List ToolBlockSpec :=
  [⟨0, "id0", "read_file", ["fragA", "fragB"]⟩, ⟨1, "id1", "exec", ["fragC"]⟩]

/-- A complete schedule interleaving the two blocks with two text deltas;
block 1 stops before block 0. -/
def movesW : List Move :=
  [Move.text 0 "Hello ", Move.tool 0, Move.tool 1, Move.tool 0, Move.text 0 "world",
   Move.tool 1, Move.tool 0, Move.tool 1, Move.tool 0]

/-- Witness for the amended C1 at a concrete interleaved stream. -/
theorem C1_streaming_reconstruction_amended_witness :
    ((parseSSEStream jpRaw (SSEEvent.messageStart 42 ::
        ((renderB movesW (specsW.map toolBlockEvents)).1 ++ [SSEEvent.messageStop]))).2 =
      Except.ok { content := textConcat (renderB movesW (specsW.map toolBlockEvents)).1,
                  toolCalls := (stopsOf (renderB movesW (specsW.map toolBlockEvents)).1).filterMap
                    (specCall jpRaw specsW),
                  usage := ⟨42, 0, 0⟩ }) ∧
    (stopsOf (renderB movesW (specsW.map toolBlockEvents)).1).Perm
      (specsW.map ToolBlockSpec.index) :=
  ⟨(C1_streaming_reconstruction_amended jpRaw 42 specsW movesW (by simp [specsW])).1,
   (C1_streaming_reconstruction_amended jpRaw 42 specsW movesW (by simp [specsW])).2 (by decide)⟩

/-- Two tool blocks with ascending indices 0 and 1 for the C1 counterexample. -/
def specsCex : List ToolBlockSpec := [⟨0, "id0", "glob", ["argA"]⟩, ⟨1, "id1", "grep", ["argB"]⟩]

/-- A complete schedule nesting block 1's triple inside block 0's:
start0, start1, delta1, stop1, delta0, stop0. -/
def movesCex : List Move :=
  [Move.tool 0, Move.tool 1, Move.tool 1, Move.tool 1, Move.tool 0, Move.tool 0]

/-- C1 counterexample: a well-formed input — two complete tool_use triples
with distinct block indices 0 and 1 (block 1 nested inside block 0, so its
stop arrives first) — whose decoded toolCalls come out as [id1, id0]:
stop-arrival order, NOT the ascending block-index order [id0, id1] the claim
requires. -/
theorem C1_counterexample :
    specsCex.map ToolBlockSpec.index = [0, 1] ∧
    (renderB movesCex (specsCex.map toolBlockEvents)).2 = [[], []] ∧
    (Except.map (fun r => r.toolCalls.map ToolCall.id)
      (parseSSEStream jpRaw (SSEEvent.messageStart 7 ::
        ((renderB movesCex (specsCex.map toolBlockEvents)).1 ++ [SSEEvent.messageStop]))).2) =
      Except.ok ["id1", "id0"] ∧
    ["id1", "id0"] ≠ ["id0", "id1"] := by
  decide

end DomiClaw
